import Mathlib

/-!
Verification of the Project-Modify-agent repository against its
natural-language specification.

The repository is a Node.js backend that forwards source code to a hosted
LLM service and writes results back to a git working copy.  Each section
below shallowly embeds one component of the source tree:

* `src/src/app.js`             — HTTP application shell (middleware order)
* `src/services/grokService.js` (extended variant)
                               — batch modification service
* `src/services/repoModifyService.js`
                               — repository modification endpoint service
* `scripts/…` (extended CLI)   — auto-refactor CLI / cron script
* `sample-test.js`             — bundled greeting-library fixture

JavaScript numbers are modelled as `ℚ` (all values appearing in the claims
are exactly representable), strings as Lean `String`/`List Char` with the
ASCII fragments of the Unicode classes the source uses, fallible code as
`Except`, and side effects (filesystem, git, network) as explicit effect
lists returned alongside results.
-/

/- ### Application shell (src/src/app.js)

The file registers, in source order:
  app.use(cors()); app.use(express.json());
  app.use('/api/code', codeRoutes); app.use('/api/repo', repoRoutes);
  app.use(errorHandler);
  app.get('/health', …)
-/

inductive AppRegistration where
  | middleware (name : String)
  | routeGroup (prefixPath : String)
  | errorMiddleware
  | route (method : String) (routePath : String)
deriving DecidableEq, Repr

/-- Registration order of `src/src/app.js`, top to bottom. -/
def appRegistrations : List AppRegistration :=
  [ .middleware "cors"
  , .middleware "json"
  , .routeGroup "/api/code"
  , .routeGroup "/api/repo"
  , .errorMiddleware
  , .route "GET" "/health" ]

/-- Index of the first occurrence of a registration in the app.js order. -/
def regIndex (r : AppRegistration) : Nat := appRegistrations.indexOf r

/-- A registration is a route (route group or concrete route). -/
def AppRegistration.isRoute : AppRegistration → Bool
  | .routeGroup _ => true
  | .route _ _ => true
  | _ => false

/-- The claim's property: every route the app exposes is registered ahead of
the error-handling middleware, which is mounted last. -/
def errorHandlerMountedLast : Prop :=
  (∀ r ∈ appRegistrations, r.isRoute → regIndex r < regIndex .errorMiddleware)
  ∧ regIndex .errorMiddleware = appRegistrations.length - 1

instance : Decidable errorHandlerMountedLast := by
  unfold errorHandlerMountedLast
  exact inferInstance

/- ### Fixture: hour classification (sample-test.js, getTimeOfDayFromHour)

JavaScript numbers are modelled as rationals; `Number.isInteger q`
is `q.den = 1`.
-/

/-- Embedding of `getTimeOfDayFromHour` from `sample-test.js`:
validates that the hour is an integer in `[0,23]`, then classifies. -/
def getTimeOfDayFromHour (hour : ℚ) : Option String :=
  if ¬ (hour.den = 1) ∨ hour < 0 ∨ 23 < hour then none
  else if hour < 12 then some "morning"
  else if hour < 18 then some "afternoon"
  else if hour < 21 then some "evening"
  else some "night"

/- ### Batch modification service (extended grokService, src/unnamed/part_004)

`parseBatchResponse` matches the reply repeatedly against the regex
  /FILE:\s*([^\n]+)\n```(?:[\w#+-]+)?\n([\s\S]*?)```/g
It is embedded below as a left-to-right scanner over the character list.
At each candidate position the literal "FILE:" is required; the `\s*`
group is replayed with the engine's backtracking (greedy first, then
giving characters back one at a time), each remaining stage being forced:
the `[^\n]+` path group must run exactly to the next newline (the literal
`\n` after it rules out shorter splits), the optional language tag must be
the maximal run (a shorter one leaves a tag character where the literal
newline is required), and the lazy body ends at the first closing fence.
When no match starts at a position the scan advances one character; when a
match is found the scan resumes after its span — also when the source's
`relativePath && updatedCode` guard discards the parsed entry, exactly as
the JavaScript `lastIndex` does.
-/

/-- The ASCII fragment of the JavaScript `\s` class. -/
def jsWsChar (c : Char) : Bool :=
  c = ' ' ∨ c = '\t' ∨ c = '\n' ∨ c = '\r' ∨ c = '\x0b' ∨ c = '\x0c'

/-- The ASCII fragment of the regex class `[\w#+-]` (language tag chars). -/
def langTagChar (c : Char) : Bool :=
  c.isAlphanum ∨ c = '_' ∨ c = '#' ∨ c = '+' ∨ c = '-'

/- ### Fixture: string utilities shared by the greeting library
(sample-test.js) -/

/-- Numeric value of a run of decimal digits. -/
def digitsToNat (ds : List Char) : Nat :=
  ds.foldl (fun n c => 10 * n + (c.toNat - 48)) 0

/-- JavaScript `String.prototype.trim` (ASCII whitespace fragment). -/
def trimL (cs : List Char) : List Char :=
  ((cs.dropWhile jsWsChar).reverse.dropWhile jsWsChar).reverse

/-- JavaScript trim on `String`. -/
def jsTrim (s : String) : String := String.mk (trimL s.data)

/-- JavaScript `toLowerCase` (basic-latin fragment). -/
def jsToLowerStr (s : String) : String := String.mk (s.data.map Char.toLower)

/-- The backtick character, by code point. -/
def backtickChar : Char := Char.ofNat 96

/-- Test whether the list starts with the given literal prefix. -/
def startsWithL : List Char → List Char → Bool
  | _, [] => true
  | [], _ :: _ => false
  | c :: cs, p :: ps => c = p && startsWithL cs ps

/-- Split `cs` at the first occurrence of the closing fence ` ``` `,
returning the body before it and the text after it. -/
def splitAtFence : List Char → Option (List Char × List Char)
  | [] => none
  | c :: cs =>
      if startsWithL (c :: cs) [backtickChar, backtickChar, backtickChar]
      then some ([], cs.drop 2)
      else match splitAtFence cs with
        | some (body, rest) => some (c :: body, rest)
        | none => none

/-- One backtracking attempt of the batch regex tail, with the `\s*` group
already consumed by the caller: the `[^\n]+` path group is forced to run
exactly to the next newline by the literal `\n` that follows it, then the
opening fence, the maximal optional language tag followed by a newline,
and the lazy body up to the first closing fence. -/
def matchFileBlockAt (cs : List Char) :
    Option (List Char × List Char × List Char) :=
  let lineChars := cs.takeWhile (· ≠ '\n')
  if lineChars.isEmpty then none
  else match cs.drop lineChars.length with
    | '\n' :: afterNl =>
        if startsWithL afterNl [backtickChar, backtickChar, backtickChar]
        then
          let afterLang := (afterNl.drop 3).dropWhile langTagChar
          match afterLang with
          | '\n' :: bodyStart =>
              match splitAtFence bodyStart with
              | some (body, rest) => some (lineChars, body, rest)
              | none => none
          | _ => none
        else none
    | _ => none

/-- The `\s*` group's backtracking: try consuming `k` whitespace
characters (greedy), and on failure give back one character at a time,
exactly as the regex engine does. -/
def matchFileBlockFrom (cs : List Char) :
    Nat → Option (List Char × List Char × List Char)
  | 0 => matchFileBlockAt cs
  | k + 1 =>
      match matchFileBlockAt (cs.drop (k + 1)) with
      | some r => some r
      | none => matchFileBlockFrom cs k

/-- Match of the batch regex tail at a position directly after the literal
`FILE:`; returns the path group, the body group and the remaining text
after the whole match span. -/
def matchFileBlockTail (cs : List Char) :
    Option (List Char × List Char × List Char) :=
  matchFileBlockFrom cs (cs.takeWhile jsWsChar).length

/-- One file entry `{path, code}` as used by the batch endpoints. -/
structure FileEntry where
  path : String
  code : String
deriving DecidableEq, Repr

/-- The scan loop of `parseBatchResponse`: fuel-indexed left-to-right scan;
a parsed block is kept only when both trimmed groups are nonempty, exactly
as the source's `if (relativePath && updatedCode)` guard, and the scan
resumes after the match span either way (the regex's `lastIndex` advances
past a guard-discarded match too). -/
def parseBatchLoop : Nat → List Char → List FileEntry
  | 0, _ => []
  | _ + 1, [] => []
  | fuel + 1, c :: cs =>
      if startsWithL (c :: cs) ['F', 'I', 'L', 'E', ':'] then
        match matchFileBlockTail ((c :: cs).drop 5) with
        | some (pathChars, bodyChars, rest) =>
            let relativePath := jsTrim (String.mk pathChars)
            let updatedCode := jsTrim (String.mk bodyChars)
            let tail := parseBatchLoop fuel rest
            if relativePath ≠ "" ∧ updatedCode ≠ "" then
              ⟨relativePath, updatedCode⟩ :: tail
            else tail
        | none => parseBatchLoop fuel cs
      else parseBatchLoop fuel cs

/-- Embedding of `parseBatchResponse` from the extended grok service. -/
def parseBatchResponse (content : String) : List FileEntry :=
  parseBatchLoop (content.length + 1) content.data

/-- Lookup in a JavaScript `Map` built from a pair list: the last binding
for a key wins (later `Map` insertions overwrite earlier ones). -/
def jsMapGet (pairs : List (String × String)) (key : String) : Option String :=
  pairs.foldl (fun acc p => if p.1 = key then some p.2 else acc) none

/-- Operational-error value `AppError(message, statusCode)`. -/
structure AppErr where
  message : String
  statusCode : Nat
deriving DecidableEq, Repr

instance {e a : Type} [DecidableEq e] [DecidableEq a] :
    DecidableEq (Except e a) := fun x y =>
  match x, y with
  | .ok u, .ok v =>
      if h : u = v then .isTrue (by rw [h])
      else .isFalse (by intro hh; cases hh; exact h rfl)
  | .error u, .error v =>
      if h : u = v then .isTrue (by rw [h])
      else .isFalse (by intro hh; cases hh; exact h rfl)
  | .ok _, .error _ => .isFalse (by intro hh; cases hh)
  | .error _, .ok _ => .isFalse (by intro hh; cases hh)

/-- Embedding of `extractTextFromResponse` restricted to the string-typed
replies produced by `generateText` (`if (!data) return ""` on a string is
the identity on nonempty strings and fixes `""`). -/
def extractTextFromResponse (data : String) : String :=
  if data = "" then "" else data

/-- Embedding of `requestProjectModification` from the extended grok
service.  The environment's `GROK_API_KEY` and the provider reply text are
parameters; the prompt-building and logging have no effect on the result.
Everything inside the source's `try` block runs in the inner `Except`; any
error raised there is replaced by the `catch` block's
`AppError("Failed to contact Grok AI service", 502)`. -/
def requestProjectModification (rawApiKey : Option String)
    (files : List FileEntry) (responseText : String) :
    Except AppErr (List FileEntry) :=
  if files.isEmpty then
    .error ⟨"At least one file is required for batch refactoring", 400⟩
  else
    let apiKey := match rawApiKey with
      | some k => if k = "" then none else some (jsTrim k)
      | none => none
    match apiKey with
    | none => .error ⟨"GROK_API_KEY is not set in environment variables", 500⟩
    | some key =>
        if key = "" then
          .error ⟨"GROK_API_KEY is not set in environment variables", 500⟩
        else
          let tryBody : Except AppErr (List FileEntry) :=
            let content := extractTextFromResponse responseText
            if content = "" then
              .error ⟨"Grok AI did not return any content", 502⟩
            else
              let parsedFiles := parseBatchResponse content
              if parsedFiles.isEmpty then
                .error ⟨"Grok AI did not return any file updates", 502⟩
              else
                let incomingMap := parsedFiles.map fun f => (jsTrim f.path, f.code)
                .ok <| files.map fun file =>
                  { path := file.path
                    code := match jsMapGet incomingMap (jsTrim file.path) with
                      | some updatedCode =>
                          if updatedCode = "" then file.code else updatedCode
                      | none => file.code }
          match tryBody with
          | .ok result => .ok result
          | .error _ => .error ⟨"Failed to contact Grok AI service", 502⟩

/- ### Repository modification service (src/unnamed/part_005, modifyFileWithGrok)

The service resolves the repository path, checks the target file, reads it,
asks the single-file Grok contract for an update, and then either
short-circuits or performs write → status → add → status → commit → push.
External outcomes (file existence, provider reply, the two git statuses)
are parameters; the effects actually performed are returned as a list.
-/

/-- JavaScript `a || b` for an optional string: `b` when `a` is absent or
empty (falsy). -/
def jsOrString (v : Option String) (dflt : String) : String :=
  match v with
  | some s => if s = "" then dflt else s
  | none => dflt

/-- Filesystem/git effects performed by `modifyFileWithGrok`, in order. -/
inductive RepoEffect where
  | fsWrite (path content : String)
  | gitStatus
  | gitAdd (path : String)
  | gitCommit (message : String)
  | gitPush
deriving DecidableEq, Repr

/-- The fragment of a `simple-git` status result the service inspects. -/
structure GitStatus where
  staged : List String
  files : List String
deriving DecidableEq, Repr

/-- Result value of `modifyFileWithGrok` (the git-status echoes are the
input statuses and are omitted). -/
structure RepoModifyOutcome where
  message : String
  updated : Bool
  commit : Option String
deriving DecidableEq, Repr

/-- Content of the target file after running a list of repo effects,
starting from `original` (only `fsWrite` changes it). -/
def applyRepoEffects (original : String) : List RepoEffect → String
  | [] => original
  | .fsWrite _ content :: rest => applyRepoEffects content rest
  | _ :: rest => applyRepoEffects original rest

/-- Embedding of `modifyFileWithGrok`:
`repoPath`/`targetFile` are the request fields after the
`DEFAULT_REPO_PATH`/`DEFAULT_TARGET_FILE` environment fallbacks
(`none` = still absent/falsy), `fileExists` is the `fs.access` outcome,
`providerResult` the outcome of `requestCodeModification`, and the two
statuses the `git.status()` replies before and after `git.add`. -/
def modifyFileWithGrok (repoPath targetFile : Option String)
    (fileExists : Bool) (originalCode : String)
    (providerResult : Except AppErr String) (commitMessage : Option String)
    (statusPostAdd : GitStatus) :
    List RepoEffect × Except AppErr RepoModifyOutcome :=
  match repoPath with
  | none =>
      ([], .error ⟨"Repository path is required. Provide repoPath in the request body or set DEFAULT_REPO_PATH in the environment.", 400⟩)
  | some baseRepoPath =>
      match targetFile with
      | none =>
          ([], .error ⟨"Target file is required. Provide targetFile in the request body or set DEFAULT_TARGET_FILE in the environment.", 400⟩)
      | some relativeFilePath =>
          let filePath := baseRepoPath ++ "/" ++ relativeFilePath
          if ¬ fileExists then
            ([], .error ⟨"Target file not found at path: " ++ filePath, 404⟩)
          else
            match providerResult with
            | .error e => ([], .error e)
            | .ok updatedCode =>
                if updatedCode = "" then
                  ([], .error ⟨"Grok AI returned empty content", 502⟩)
                else if jsTrim updatedCode = jsTrim originalCode then
                  ([], .ok ⟨"Grok AI returned identical content; skipping git operations.", false, none⟩)
                else
                  let effects := [RepoEffect.fsWrite filePath updatedCode,
                    RepoEffect.gitStatus, RepoEffect.gitAdd relativeFilePath,
                    RepoEffect.gitStatus]
                  if statusPostAdd.staged.isEmpty ∧ statusPostAdd.files.isEmpty
                  then
                    (effects, .ok ⟨"File updated on disk but git detected no staged changes; commit skipped.", true, none⟩)
                  else
                    let commitMsg := jsOrString commitMessage
                      ("chore: automated update for " ++ relativeFilePath ++
                        " via Grok AI")
                    (effects ++ [RepoEffect.gitCommit commitMsg,
                        RepoEffect.gitPush],
                      .ok ⟨"File modified, committed, and pushed successfully.", true, some commitMsg⟩)

/- ### Fixture: time-of-day normalization (sample-test.js,
normalizeTimeOfDay)

The two anchored clock regexes
  /^(\d{1,2})(?::(\d{2}))?\s*(am|pm)$/   and   /^(\d{1,2})(?::(\d{2}))?$/
are embedded as deterministic parsers: a leading digit run of length one or
two (a longer run can satisfy neither split), an optional `:` followed by
exactly two digits (when the `:` is present the skipped-group alternative
cannot match, since `:` starts neither `\s*(am|pm)$` nor the end), then the
anchored tail. -/

/-- Match of the 12-hour regex: raw hour, minute (0 when absent), and
whether the suffix was `pm`. -/
def match12Hour (cs : List Char) : Option (Nat × Nat × Bool) :=
  let ds := cs.takeWhile Char.isDigit
  if ds.isEmpty ∨ 2 < ds.length then none
  else
    let h := digitsToNat ds
    let rest := cs.drop ds.length
    let afterMinutes : Option (Nat × List Char) :=
      match rest with
      | ':' :: r =>
          match r with
          | a :: b :: r2 =>
              if a.isDigit ∧ b.isDigit then some (digitsToNat [a, b], r2)
              else none
          | _ => none
      | _ => some (0, rest)
    match afterMinutes with
    | none => none
    | some (m, r2) =>
        let afterWs := r2.dropWhile jsWsChar
        if afterWs = ['a', 'm'] then some (h, m, false)
        else if afterWs = ['p', 'm'] then some (h, m, true)
        else none

/-- Match of the 24-hour regex: raw hour and minute (0 when absent). -/
def match24Hour (cs : List Char) : Option (Nat × Nat) :=
  let ds := cs.takeWhile Char.isDigit
  if ds.isEmpty ∨ 2 < ds.length then none
  else
    let h := digitsToNat ds
    match cs.drop ds.length with
    | [] => some (h, 0)
    | ':' :: r =>
        match r with
        | [a, b] =>
            if a.isDigit ∧ b.isDigit then some (h, digitsToNat [a, b])
            else none
        | _ => none
    | _ => none

/-- The source's sequential pm/am adjustment:
`if (period === 'pm' && h < 12) h += 12; if (period === 'am' && h === 12)
h = 0;`. -/
def convert12Hour (h : Nat) (isPm : Bool) : Nat :=
  let h1 := if isPm ∧ h < 12 then h + 12 else h
  if ¬ isPm ∧ h1 = 12 then 0 else h1

/-- Hexadecimal digit. -/
def isHexDigit (c : Char) : Bool :=
  c.isDigit ∨ ('a' ≤ c ∧ c ≤ 'f') ∨ ('A' ≤ c ∧ c ≤ 'F')

/-- Value of a hexadecimal digit. -/
def hexVal (c : Char) : Nat :=
  if c.isDigit then c.toNat - 48
  else if 'a' ≤ c ∧ c ≤ 'f' then c.toNat - 87
  else c.toNat - 55

/-- Fold digit values in base `b`. -/
def digitsToNatBase (b : Nat) (vals : List Nat) : Nat :=
  vals.foldl (fun n v => b * n + v) 0

/-- Decimal part of the JavaScript `Number(string)` grammar:
`digits [. digits] [e|E [+|-] digits]` with at least one mantissa digit;
the whole remainder must be consumed. -/
def parseDecimalNumber (cs : List Char) (neg : Bool) : Option ℚ :=
  let ip := cs.takeWhile Char.isDigit
  let r1 := cs.drop ip.length
  let fp := match r1 with
    | '.' :: r => r.takeWhile Char.isDigit
    | _ => []
  let r2 := match r1 with
    | '.' :: r => r.drop (r.takeWhile Char.isDigit).length
    | _ => r1
  if ip.isEmpty ∧ fp.isEmpty then none
  else
    let mantissa : Int := (digitsToNat ip * 10 ^ fp.length + digitsToNat fp : Nat)
    let mantissa := if neg then -mantissa else mantissa
    match r2 with
    | [] => some (mkRat mantissa (10 ^ fp.length))
    | e :: r3 =>
        if e = 'e' ∨ e = 'E' then
          let expNeg := match r3 with
            | '-' :: _ => true
            | _ => false
          let r4 := match r3 with
            | '+' :: r => r
            | '-' :: r => r
            | _ => r3
          let ed := r4.takeWhile Char.isDigit
          if ed.isEmpty ∨ ¬ (r4.drop ed.length).isEmpty then none
          else
            let ex := digitsToNat ed
            if expNeg then some (mkRat mantissa (10 ^ fp.length * 10 ^ ex))
            else some (mkRat (mantissa * ((10 : Int) ^ ex)) (10 ^ fp.length))
        else none

/-- Embedding of JavaScript `Number(string)`: trims, `""` is `0`, then the
hex/octal/binary literals (unsigned) or the signed decimal grammar.
`none` models `NaN`; the `Infinity` literals are also mapped to `none`,
which is observationally equal for every consumer in this development
(all of them only test `Number.isInteger` plus a range). -/
def jsStringToNumber (s : String) : Option ℚ :=
  let cs := trimL s.data
  match cs with
  | [] => some 0
  | _ =>
      if startsWithL cs ['0', 'x'] ∨ startsWithL cs ['0', 'X'] then
        let ds := cs.drop 2
        if ¬ ds.isEmpty ∧ ds.all isHexDigit then
          some (mkRat (digitsToNatBase 16 (ds.map hexVal)) 1)
        else none
      else if startsWithL cs ['0', 'o'] ∨ startsWithL cs ['0', 'O'] then
        let ds := cs.drop 2
        if ¬ ds.isEmpty ∧ ds.all (fun c => '0' ≤ c ∧ c ≤ '7') then
          some (mkRat (digitsToNatBase 8 (ds.map fun c => c.toNat - 48)) 1)
        else none
      else if startsWithL cs ['0', 'b'] ∨ startsWithL cs ['0', 'B'] then
        let ds := cs.drop 2
        if ¬ ds.isEmpty ∧ ds.all (fun c => c = '0' ∨ c = '1') then
          some (mkRat (digitsToNatBase 2 (ds.map fun c => c.toNat - 48)) 1)
        else none
      else
        match cs with
        | '+' :: r =>
            if r = "Infinity".data then none else parseDecimalNumber r false
        | '-' :: r =>
            if r = "Infinity".data then none else parseDecimalNumber r true
        | _ =>
            if cs = "Infinity".data then none
            else parseDecimalNumber cs false

/-- First matching stage of the string branch: the 12-hour regex plus the
source's in-branch range test (`h >= 1 && h <= 12 && m >= 0 && m < 60`);
`none` falls through to the next stage. -/
def attempt12 (cs : List Char) : Option (Option String) :=
  match match12Hour cs with
  | some (h, m, isPm) =>
      if 1 ≤ h ∧ h ≤ 12 ∧ m < 60 then
        some (getTimeOfDayFromHour (mkRat (convert12Hour h isPm) 1))
      else none
  | none => none

/-- Second stage: the 24-hour regex plus
`h >= 0 && h <= 23 && m >= 0 && m < 60`. -/
def attempt24 (cs : List Char) : Option (Option String) :=
  match match24Hour cs with
  | some (h, m) =>
      if h ≤ 23 ∧ m < 60 then
        some (getTimeOfDayFromHour (mkRat h 1))
      else none
  | none => none

/-- Third stage: `Number(lower)` plus
`!isNaN(hour) && Number.isInteger(hour) && hour >= 0 && hour <= 23`
(for a rational with denominator 1 the range test is the test on the
numerator). -/
def attemptNumber (lower : String) : Option (Option String) :=
  match jsStringToNumber lower with
  | some q =>
      if q.den = 1 ∧ 0 ≤ q.num ∧ q.num ≤ 23 then
        some (getTimeOfDayFromHour q)
      else none
  | none => none

/-- The string branch of `normalizeTimeOfDay` (`currentHour` is the local
hour that `new Date().getHours()` would report for the literal "now"). -/
def normalizeTimeOfDayStr (currentHour : ℚ) (s : String) : Option String :=
  let trimmed := jsTrim s
  if trimmed = "" then none
  else
    let lower := jsToLowerStr trimmed
    if lower = "now" then getTimeOfDayFromHour currentHour
    else
      match attempt12 lower.data with
      | some r => r
      | none =>
          match attempt24 lower.data with
          | some r => r
          | none =>
              match attemptNumber lower with
              | some r => r
              | none => some lower

/-- Inputs of `normalizeTimeOfDay`: null/undefined, a `Date` (carrying the
`getHours()` result, `none` for an invalid date whose hour is `NaN`),
a number, a string, or any other value. -/
inductive TodInput where
  | null
  | date (hour : Option ℚ)
  | num (q : ℚ)
  | str (s : String)
  | other
deriving Repr

/-- Embedding of `normalizeTimeOfDay` from `sample-test.js`. -/
def normalizeTimeOfDay (currentHour : ℚ) : TodInput → Option String
  | .null => none
  | .date (some h) => getTimeOfDayFromHour h
  | .date none => none
  | .num q => getTimeOfDayFromHour q
  | .str s => normalizeTimeOfDayStr currentHour s
  | .other => none

/- ### Claim-side normalization (spec wording of C7) -/

/-- The claim's first grammar: a 12-hour clock with optional minutes and an
am/pm suffix, hour 1–12, minute 0–59; pm hours under 12 add 12 and 12 am
maps to hour 0.  Returns the 24-hour hour. -/
def claim12Hour (cs : List Char) : Option Nat :=
  match match12Hour cs with
  | some (h, m, isPm) =>
      if 1 ≤ h ∧ h ≤ 12 ∧ m ≤ 59 then
        some (if isPm ∧ h < 12 then h + 12
          else if ¬ isPm ∧ h = 12 then 0 else h)
      else none
  | none => none

/-- The claim's second grammar: a 24-hour clock with optional minutes,
hour 0–23, minute 0–59. -/
def claim24Hour (cs : List Char) : Option Nat :=
  match match24Hour cs with
  | some (h, m) => if h ≤ 23 ∧ m ≤ 59 then some h else none
  | none => none

/-- The claim's third matcher, read literally: a bare integer hour string
in `[0,23]` (a nonempty digit string whose value is at most 23). -/
def claimBareHour (cs : List Char) : Option Nat :=
  if ¬ cs.isEmpty ∧ cs.all Char.isDigit ∧ digitsToNat cs ≤ 23 then
    some (digitsToNat cs)
  else none

/-- C7's description of the string normalization: the trimmed text matched
in order against the three grammars, each hit classified by the fixture's
hour boundaries, and on total failure the lowercased text used verbatim. -/
def claimNormalizeStr (s : String) : Option String :=
  let lower := jsToLowerStr (jsTrim s)
  match claim12Hour lower.data with
  | some h => getTimeOfDayFromHour (mkRat h 1)
  | none =>
      match claim24Hour lower.data with
      | some h => getTimeOfDayFromHour (mkRat h 1)
      | none =>
          match claimBareHour lower.data with
          | some h => getTimeOfDayFromHour (mkRat h 1)
          | none => some lower

/-- The amended third matcher: any string whose JavaScript numeric value is
an integer in `[0,23]` (this is what `Number(lower)` accepts, e.g. also
`"5.0"` or `"+5"`). -/
def claimNormalizeStrAmended (s : String) : Option String :=
  let lower := jsToLowerStr (jsTrim s)
  match claim12Hour lower.data with
  | some h => getTimeOfDayFromHour (mkRat h 1)
  | none =>
      match claim24Hour lower.data with
      | some h => getTimeOfDayFromHour (mkRat h 1)
      | none =>
          match jsStringToNumber lower with
          | some q =>
              if q.den = 1 ∧ 0 ≤ q.num ∧ q.num ≤ 23 then
                getTimeOfDayFromHour q
              else some lower
          | none => some lower

/- ### Fixture: name capitalization (sample-test.js, capitalize)

`capitalize` trims, collapses whitespace runs to single spaces, splits on
the space character, lowercases each word and upper-cases via the global
regex `(^\p{L}|['-]\p{L})` — i.e. a letter at the start of the word or one
immediately preceded by an apostrophe or hyphen — then rejoins with single
spaces.  The Unicode letter class and the `toLowerCase`/`toUpperCase`
case maps are embedded on their basic-latin plus latin-1-letter fragment
(code points 0xC0–0xFF less the multiplication and division signs, plus
U+0178): this fragment covers the fixture's accented test names and the
sharp s U+00DF, whose uppercase is the two-character "SS" — the
one-to-many mapping that makes the source's capitalization
non-idempotent.  Characters outside the fragment are treated as
caseless non-letters.
-/

/-- Embedding of `replace(/\s+/g, ' ')`: collapse each whitespace run to one space.
The Boolean records whether the previous character was part of a run. -/
def collapseGo : Bool → List Char → List Char
  | _, [] => []
  | prevWs, c :: rest =>
      if jsWsChar c then
        if prevWs then collapseGo true rest
        else ' ' :: collapseGo true rest
      else c :: collapseGo false rest

/-- Embedding of `split(' ')` on the space character (the empty string yields `[[]]`). -/
def splitSp : List Char → List (List Char)
  | [] => [[]]
  | c :: rest =>
      if c = ' ' then [] :: splitSp rest
      else
        match splitSp rest with
        | w :: ws => (c :: w) :: ws
        | [] => [[c]]

/-- Embedding of `join(' ')`. -/
def intercalateSp : List (List Char) → List Char
  | [] => []
  | [w] => w
  | w :: ws => w ++ ' ' :: intercalateSp ws

/-- The latin-1 fragment of the Unicode letter class `\p{L}`: basic-latin
letters and the letters among code points 0xC0–0xFF (all but the
multiplication sign 0xD7 and the division sign 0xF7), plus the capital
Y with diaeresis U+0178. -/
def isUnicodeLetter (c : Char) : Bool :=
  c.isAlpha
  ∨ (0xC0 ≤ c.toNat ∧ c.toNat ≤ 0xFF ∧ c.toNat ≠ 0xD7 ∧ c.toNat ≠ 0xF7)
  ∨ c.toNat = 0x178

/-- JavaScript `toLowerCase` on one character, on the declared fragment
(one-to-one there): uppercase basic-latin and latin-1 letters gain 32,
U+0178 maps to U+00FF, everything else is fixed. -/
def jsLowerChar (c : Char) : Char :=
  if 65 ≤ c.toNat ∧ c.toNat ≤ 90 then Char.ofNat (c.toNat + 32)
  else if 0xC0 ≤ c.toNat ∧ c.toNat ≤ 0xDE ∧ c.toNat ≠ 0xD7 then
    Char.ofNat (c.toNat + 32)
  else if c.toNat = 0x178 then 'ÿ'
  else c

/-- JavaScript `toUpperCase` on one character, on the declared fragment:
lowercase basic-latin and latin-1 letters lose 32, the sharp s U+00DF
uppercases to the two characters "SS", U+00FF to U+0178, everything else
is fixed. -/
def jsUpperChar (c : Char) : List Char :=
  if 97 ≤ c.toNat ∧ c.toNat ≤ 122 then [Char.ofNat (c.toNat - 32)]
  else if c.toNat = 0xDF then ['S', 'S']
  else if 0xE0 ≤ c.toNat ∧ c.toNat ≤ 0xFE ∧ c.toNat ≠ 0xF7 then
    [Char.ofNat (c.toNat - 32)]
  else if c.toNat = 0xFF then ['Ÿ']
  else [c]

/-- The per-character replacement of the capitalization regex: a letter is
replaced by its (possibly multi-character) uppercase when it is
word-initial or directly follows an apostrophe or a hyphen (`prev` is the
preceding character of the original word). -/
def capChars : Option Char → List Char → List Char
  | _, [] => []
  | prev, c :: rest =>
      (if (prev = none ∨ prev = some '\'' ∨ prev = some '-')
          ∧ isUnicodeLetter c
        then jsUpperChar c else [c]) ++ capChars (some c) rest

/-- One word of `capitalize`: lowercase, then apply the regex replacement. -/
def capWord (w : List Char) : List Char :=
  capChars none (w.map jsLowerChar)

/-- Embedding of `capitalize` over character lists. -/
def capitalizeL (cs : List Char) : List Char :=
  if cs.isEmpty then []
  else intercalateSp ((splitSp (collapseGo false (trimL cs))).map capWord)

/-- Embedding of `capitalize` from `sample-test.js`. -/
def capitalize (s : String) : String := String.mk (capitalizeL s.data)

/- ### Fixture: greeting tables and multiple-name greeting
(sample-test.js) -/

/-- One language's greeting table (the `default` entry is `dflt`). -/
structure GreetTable where
  morning : String
  afternoon : String
  evening : String
  night : String
  dflt : String
deriving DecidableEq, Repr

/-- Property access `table[key]` on a greeting table. -/
def greetTableLookup (t : GreetTable) (key : String) : Option String :=
  if key = "morning" then some t.morning
  else if key = "afternoon" then some t.afternoon
  else if key = "evening" then some t.evening
  else if key = "night" then some t.night
  else if key = "default" then some t.dflt
  else none

/-- The `greetings` object of `sample-test.js` (nine languages). -/
def greetingsTable : List (String × GreetTable) :=
  [ ("en", ⟨"Good morning", "Good afternoon", "Good evening", "Good night",
      "Hello"⟩)
  , ("es", ⟨"Buenos días", "Buenas tardes", "Buenas noches", "Buenas noches",
      "Hola"⟩)
  , ("fr", ⟨"Bonjour", "Bonjour", "Bonsoir", "Bonne nuit", "Salut"⟩)
  , ("de", ⟨"Guten Morgen", "Guten Tag", "Guten Abend", "Gute Nacht",
      "Hallo"⟩)
  , ("it", ⟨"Buongiorno", "Buon pomeriggio", "Buonasera", "Buonanotte",
      "Ciao"⟩)
  , ("pt", ⟨"Bom dia", "Boa tarde", "Boa noite", "Boa noite", "Olá"⟩)
  , ("ja", ⟨"おはようございます", "こんにちは", "こんばんは",
      "おやすみなさい", "こんにちは"⟩)
  , ("zh", ⟨"早上好", "下午好", "晚上好", "晚安", "你好"⟩)
  , ("ru", ⟨"Доброе утро", "Добрый день", "Добрый вечер", "Доброй ночи",
      "Привет"⟩) ]

/-- The `defaultGroups` object. -/
def defaultGroups : List (String × String) :=
  [ ("en", "everyone"), ("es", "todos"), ("fr", "tout le monde")
  , ("de", "alle"), ("it", "tutti"), ("pt", "todos"), ("ja", "minasan")
  , ("zh", "大家"), ("ru", "все") ]

/-- Embedding of `getEffectiveLang` for string-typed language codes:
lowercase, keep if registered, else fall back to `"en"`. -/
def getEffectiveLang (lang : String) : String :=
  let l := jsToLowerStr lang
  if (greetingsTable.lookup l).isSome then l else "en"

/-- Embedding of `getGreeting`: resolve the language, normalize the time
of day, index the language's table with it and fall back (`||`) to the
language's default entry. -/
def getGreeting (currentHour : ℚ) (timeOfDay : TodInput) (lang : String) :
    String :=
  let effectiveLang := getEffectiveLang lang
  let tod := normalizeTimeOfDay currentHour timeOfDay
  let table := (greetingsTable.lookup effectiveLang).getD
    ⟨"", "", "", "", ""⟩
  jsOrString (tod.bind (greetTableLookup table)) table.dflt

/-- JavaScript runtime values, as far as `greetMultiple`'s first argument
is concerned. -/
inductive JsVal where
  | undef
  | jsNull
  | num (q : ℚ)
  | str (s : String)
  | arr (elems : List JsVal)
deriving Repr

/-- Model of the host `Intl.ListFormat(lang, {style:'long',
type:'conjunction'})` boundary facility: language-specific comma and
conjunction joining (an external collaborator, not repository code). -/
def intlListFormat (lang : String) (names : List String) : String :=
  let seps : String × String × String :=
    match lang with
    | "en" => (", ", " and ", ", and ")
    | "es" => (", ", " y ", " y ")
    | "fr" => (", ", " et ", " et ")
    | "de" => (", ", " und ", " und ")
    | "it" => (", ", " e ", " e ")
    | "pt" => (", ", " e ", " e ")
    | "ru" => (", ", " и ", " и ")
    | "zh" => ("、", "和", "和")
    | "ja" => ("、", "と", "と")
    | _ => (", ", " and ", ", and ")
  match names with
  | [] => ""
  | [a] => a
  | [a, b] => a ++ seps.2.1 ++ b
  | more =>
      String.intercalate seps.1 (more.dropLast) ++ seps.2.2 ++
        (more.getLast? |>.getD "")

/-- Embedding of `greetMultiple`: a non-array `names` value reaches
`names.filter` and raises a `TypeError`; an array is filtered to its
nonempty trimmed strings, capitalized, and joined. -/
def greetMultiple (currentHour : ℚ) (names : JsVal) (timeOfDay : TodInput)
    (lang : String) : Except String String :=
  let effectiveLang := getEffectiveLang lang
  let greeting := getGreeting currentHour timeOfDay lang
  match names with
  | .arr elems =>
      let validNames :=
        ((((elems.filterMap fun v =>
            match v with
            | .str str => some str
            | _ => none)).map jsTrim).filter (fun n => n ≠ "")).map capitalize
      if validNames.isEmpty then
        .ok (greeting ++ ", " ++
          ((defaultGroups.lookup effectiveLang).getD "undefined") ++ "!")
      else
        .ok (greeting ++ ", " ++ intlListFormat effectiveLang validNames ++
          "!")
  | .undef =>
      .error "TypeError: Cannot read properties of undefined (reading 'filter')"
  | .jsNull =>
      .error "TypeError: Cannot read properties of null (reading 'filter')"
  | _ => .error "TypeError: names.filter is not a function"

/- ### Auto-refactor CLI / cron script (src/unnamed/part_001)

Absolute paths are modelled as normalized segment lists (`path.resolve`
output); `path.resolve(root, p)` appends and normalizes `..`/`.`; the
source's `candidate.startsWith(root + sep) || candidate === root` test on
normalized rendered paths is the segment-prefix test.  Filesystem, network
and git-subprocess actions are returned as an ordered effect list; the
exit status of each `git` subprocess and of the diff probe are
parameters. -/

/-- A path value handed to the CLI: absolute, or relative to the repo
root. -/
inductive JsPathInput where
  | abs (segments : List String)
  | rel (segments : List String)
deriving DecidableEq, Repr

/-- Normalization of a segment sequence as `path.resolve` performs it: `.` and empty
segments vanish, `..` pops (stopping at the filesystem root). -/
def normalizeSegs (segs : List String) : List String :=
  segs.foldl (fun acc seg =>
    if seg = "" ∨ seg = "." then acc
    else if seg = ".." then acc.dropLast
    else acc ++ [seg]) []

/-- Embedding of `path.isAbsolute(p) ? p : path.resolve(repoRoot, p)` (already
normalizing the absolute case as `path.resolve` would). -/
def jsResolve (root : List String) : JsPathInput → List String
  | .abs segs => normalizeSegs segs
  | .rel segs => normalizeSegs (root ++ segs)

/-- Rendering of an absolute segment path, for error messages. -/
def renderAbs (segs : List String) : String :=
  "/" ++ String.intercalate "/" segs

/-- Rendering of a CLI path input, for error messages. -/
def renderPathInput : JsPathInput → String
  | .abs segs => renderAbs segs
  | .rel segs => String.intercalate "/" segs

/-- Rendering of a workdir-relative segment path (`path.relative` result
with the source's `|| "."` fallback). -/
def renderRel (segs : List String) : String :=
  if segs.isEmpty then "." else String.intercalate "/" segs

/-- The test `candidate === repoRoot || candidate.startsWith(repoRoot + sep)` on
normalized paths. -/
def withinRoot (root candidate : List String) : Bool :=
  candidate = root ∨ root.isPrefixOf candidate

/-- Embedding of `resolvePathInRepo`: resolve against the repository root
and throw when the result lies outside it. -/
def resolvePathInRepo (repoRoot : List String) (inputPath : JsPathInput) :
    Except String (List String) :=
  let candidate := jsResolve repoRoot inputPath
  if withinRoot repoRoot candidate then .ok candidate
  else
    .error ("Path " ++ renderPathInput inputPath ++
      " resolves outside of repository root (" ++ renderAbs repoRoot ++ ")")

/-- Embedding of `relativeToGitWorkdir`: absolute inputs are taken as-is,
relative ones resolved in the repo first; the result must lie inside the
git working directory and is returned relative to it. -/
def relativeToGitWorkdir (repoRoot gitWorkdir : List String)
    (inputPath : JsPathInput) : Except String (List String) :=
  let absolutePath : Except String (List String) :=
    match inputPath with
    | .abs segs => .ok (normalizeSegs segs)
    | .rel _ => resolvePathInRepo repoRoot inputPath
  match absolutePath with
  | .error e => .error e
  | .ok p =>
      if p = gitWorkdir ∨ gitWorkdir.isPrefixOf p then
        .ok (p.drop gitWorkdir.length)
      else
        .error ("Path " ++ renderPathInput inputPath ++
          " is outside of git working directory (" ++ renderAbs gitWorkdir ++
          ")")

/-- Observable actions of one CLI run, in order. -/
inductive CliEffect where
  | fsRead (path : List String)
  | httpPost (url : String)
  | fsWrite (path : List String) (content : String)
  | gitDiffProbe (targets : List (List String))
  | gitRun (args : List String)
deriving DecidableEq, Repr

/-- Environment configuration consumed by the single-file flow (each
`Option` is `none` when the variable is unset or falsy-empty). -/
structure SingleFileEnv where
  endpointUrl : String
  commitMessageEnv : Option String
  gitRemote : Option String
  gitBranch : Option String
deriving Repr

/-- The identifiers in scope at the final success-log statement of the
extended script's `processSingleFile` (module-level bindings plus the
function's own locals and parameter), transcribed from the source. -/
def singleFileScopeNames : List String :=
  [ "path", "fs", "spawnSync", "repoRoot"
  , "GROK_CRON_ENDPOINT", "GROK_DIRECTORY_ENDPOINT", "GROK_TARGET_FILE"
  , "GROK_TARGET_DIR", "GROK_ADDITIONAL_INSTRUCTION", "GROK_COMMIT_MESSAGE"
  , "GROK_GIT_REMOTE", "GROK_GIT_BRANCH", "GROK_GIT_WORKDIR"
  , "parseCliArgs", "cliArgs", "singleFileEndpoint", "directoryEndpoint"
  , "targetFile", "targetDirectory", "useDirectoryMode", "instruction"
  , "gitWorkdirInput", "toPosix", "resolvePathInRepo", "gitWorkdir"
  , "normalizeBasePath", "relativeToGitWorkdir", "getFetch", "runGit"
  , "prepareGitTargets", "hasGitDiff", "callApi", "processSingleFile"
  , "ensureWritableFile", "processDirectory", "main"
  , "fetchImpl", "targetFilePath", "gitRelativePath", "sourceCode"
  , "payload", "updatedCode", "commitMessage", "pushArgs" ]

/-- The push argument list: `["push"]`, plus the remote when
`GROK_GIT_REMOTE` is set, plus (defaulting the remote to `origin` when only
a branch is given) the branch when `GROK_GIT_BRANCH` is set. -/
def buildPushArgs (gitRemote gitBranch : Option String) : List String :=
  let pushArgs := ["push"]
  let pushArgs := match gitRemote with
    | some r => pushArgs ++ [r]
    | none => pushArgs
  match gitBranch with
  | some b =>
      (if pushArgs.length = 1 then pushArgs ++ ["origin"] else pushArgs) ++
        [b]
  | none => pushArgs

/-- Embedding of the extended script's `processSingleFile`.
`apiProcessedCode` is `payload?.data?.processedCode` when it is a string
(`none` otherwise), `diffStatus`/`diffErr` the status and process-error
flag of the `git diff --quiet` probe, and `gitExit` the exit status of each
subsequent `git` subprocess.  The final success log evaluates the template
referencing the identifier `relativePathForGit` against the names in
scope. -/
def processSingleFile (repoRoot gitWorkdir : List String)
    (env : SingleFileEnv) (targetFile : JsPathInput) (sourceCode : String)
    (apiProcessedCode : Option String) (diffStatus : Int) (diffErr : Bool)
    (gitExit : List String → Int) :
    List CliEffect × Except String Unit :=
  match resolvePathInRepo repoRoot targetFile with
  | .error e => ([], .error e)
  | .ok targetFilePath =>
      match relativeToGitWorkdir repoRoot gitWorkdir (.abs targetFilePath)
      with
      | .error e => ([], .error e)
      | .ok gitRelativePath =>
          let effs0 := [CliEffect.fsRead targetFilePath,
            CliEffect.httpPost env.endpointUrl]
          match apiProcessedCode with
          | none =>
              (effs0,
                .error "API response does not include processed code content")
          | some updatedCode =>
              if jsTrim updatedCode = "" then
                (effs0,
                  .error
                    "API response does not include processed code content")
              else if updatedCode = sourceCode then
                (effs0, .ok ())
              else
                let effs1 := effs0 ++
                  [CliEffect.fsWrite targetFilePath updatedCode]
                match relativeToGitWorkdir repoRoot gitWorkdir
                  (.abs targetFilePath) with
                | .error e => (effs1, .error e)
                | .ok diffTarget =>
                    let effs2 := effs1 ++
                      [CliEffect.gitDiffProbe [diffTarget]]
                    let diffOutcome : Except String Bool :=
                      if diffStatus = 0 then .ok false
                      else if diffStatus = 1 then .ok true
                      else if diffStatus = 128 ∧ ¬ diffErr then .ok true
                      else if diffErr then .error "git diff spawn error"
                      else .error "git diff failed to determine changes"
                    match diffOutcome with
                    | .error e => (effs2, .error e)
                    | .ok false => (effs2, .ok ())
                    | .ok true =>
                        let addArgs := ["add", renderRel gitRelativePath]
                        let effs3 := effs2 ++ [CliEffect.gitRun addArgs]
                        if gitExit addArgs ≠ 0 then
                          (effs3, .error ("git " ++
                            String.intercalate " " addArgs ++
                            " failed with status " ++
                            toString (gitExit addArgs)))
                        else
                          let commitMessage := jsOrString env.commitMessageEnv
                            ("chore: auto update " ++
                              renderRel gitRelativePath)
                          let commitArgs := ["commit", "-m", commitMessage]
                          let effs4 := effs3 ++ [CliEffect.gitRun commitArgs]
                          if gitExit commitArgs ≠ 0 then
                            (effs4, .error ("git " ++
                              String.intercalate " " commitArgs ++
                              " failed with status " ++
                              toString (gitExit commitArgs)))
                          else
                            let pushArgs :=
                              buildPushArgs env.gitRemote env.gitBranch
                            let effs5 := effs4 ++
                              [CliEffect.gitRun pushArgs]
                            if gitExit pushArgs ≠ 0 then
                              (effs5, .error ("git " ++
                                String.intercalate " " pushArgs ++
                                " failed with status " ++
                                toString (gitExit pushArgs)))
                            else if
                              singleFileScopeNames.contains
                                "relativePathForGit" then
                              (effs5, .ok ())
                            else
                              (effs5, .error
                                "ReferenceError: relativePathForGit is not defined")

/-- Outcome of a whole CLI run: `main().catch` logs any thrown error and
exits with status 1; otherwise the process ends with status 0. -/
structure CliExit where
  effects : List CliEffect
  exitCode : Nat
  loggedError : Option String
deriving Repr

/-- The script's top level in single-file mode
(`main().catch(err => { console.error(err); process.exit(1); })`). -/
def cliMainSingleFile (repoRoot gitWorkdir : List String)
    (env : SingleFileEnv) (targetFile : JsPathInput) (sourceCode : String)
    (apiProcessedCode : Option String) (diffStatus : Int) (diffErr : Bool)
    (gitExit : List String → Int) : CliExit :=
  match processSingleFile repoRoot gitWorkdir env targetFile sourceCode
    apiProcessedCode diffStatus diffErr gitExit with
  | (effs, .ok _) => ⟨effs, 0, none⟩
  | (effs, .error e) => ⟨effs, 1, some e⟩

/-! ## Theorems -/

lemma getTimeOfDayFromHour_invalid (q : ℚ)
    (hq : q.den ≠ 1 ∨ q < 0 ∨ 23 < q) : getTimeOfDayFromHour q = none := by
  unfold getTimeOfDayFromHour
  rw [if_pos]
  rcases hq with h | h | h
  · exact Or.inl h
  · exact Or.inr (Or.inl h)
  · exact Or.inr (Or.inr h)

lemma getTimeOfDayFromHour_int (h : ℤ) (h0 : 0 ≤ h) (h23 : h ≤ 23) :
    getTimeOfDayFromHour (h : ℚ) =
      if h < 12 then some "morning"
      else if h < 18 then some "afternoon"
      else if h < 21 then some "evening"
      else some "night" := by
  have hd : ((h : ℚ)).den = 1 := Rat.den_intCast h
  have h0' : ¬ (h : ℚ) < 0 := not_lt.mpr (by exact_mod_cast h0)
  have h23' : ¬ (23 : ℚ) < (h : ℚ) := not_lt.mpr (by exact_mod_cast h23)
  have e12 : ((h : ℚ) < 12) = (h < 12) := by
    simp only [eq_iff_iff]; exact_mod_cast Iff.rfl
  have e18 : ((h : ℚ) < 18) = (h < 18) := by
    simp only [eq_iff_iff]; exact_mod_cast Iff.rfl
  have e21 : ((h : ℚ) < 21) = (h < 21) := by
    simp only [eq_iff_iff]; exact_mod_cast Iff.rfl
  simp [getTimeOfDayFromHour, hd, h0', h23', e12, e18, e21]

/-- C5 counterexample: in `src/src/app.js` the error-handling middleware is
registered *before* the `GET /health` route, so it is not mounted last and
not every route precedes it. -/
theorem c5_health_after_error_handler : ¬ errorHandlerMountedLast := by decide

/-- C5 (amended): the `/api/code` and `/api/repo` route groups are registered
ahead of the error-handling middleware, but `GET /health` is registered after
it, so the error-handling middleware is the second-to-last registration
rather than the last. -/
theorem c5_amended_registration_order :
    regIndex (.routeGroup "/api/code") < regIndex .errorMiddleware
    ∧ regIndex (.routeGroup "/api/repo") < regIndex .errorMiddleware
    ∧ regIndex .errorMiddleware < regIndex (.route "GET" "/health")
    ∧ regIndex (.route "GET" "/health") = appRegistrations.length - 1 := by
  decide

/-- C6: for every integer hour in `[0,23]` the classification returns exactly
the category of the unique interval containing it, and every non-integer or
out-of-range rational input (in particular `25`, `-1`, `10.5`) yields
`none`. -/
theorem c6_hour_classification :
    (∀ h : ℤ, 0 ≤ h → h < 12 → getTimeOfDayFromHour (h : ℚ) = some "morning")
    ∧ (∀ h : ℤ, 12 ≤ h → h < 18 → getTimeOfDayFromHour (h : ℚ) = some "afternoon")
    ∧ (∀ h : ℤ, 18 ≤ h → h < 21 → getTimeOfDayFromHour (h : ℚ) = some "evening")
    ∧ (∀ h : ℤ, 21 ≤ h → h < 24 → getTimeOfDayFromHour (h : ℚ) = some "night")
    ∧ (∀ q : ℚ, q.den ≠ 1 ∨ q < 0 ∨ 23 < q → getTimeOfDayFromHour q = none)
    ∧ getTimeOfDayFromHour 25 = none
    ∧ getTimeOfDayFromHour (-1) = none
    ∧ getTimeOfDayFromHour (10.5 : ℚ) = none := by
  refine ⟨?_, ?_, ?_, ?_, getTimeOfDayFromHour_invalid, by decide, by decide,
    getTimeOfDayFromHour_invalid _ (Or.inl (by norm_num))⟩
  · intro h h0 h12
    rw [getTimeOfDayFromHour_int h h0 (by omega)]
    simp [h12]
  · intro h h12 h18
    have n12 : ¬ h < 12 := by omega
    rw [getTimeOfDayFromHour_int h (by omega) (by omega)]
    simp [n12, h18]
  · intro h h18 h21
    have n12 : ¬ h < 12 := by omega
    have n18 : ¬ h < 18 := by omega
    rw [getTimeOfDayFromHour_int h (by omega) (by omega)]
    simp [n12, n18, h21]
  · intro h h21 h24
    have n12 : ¬ h < 12 := by omega
    have n18 : ¬ h < 18 := by omega
    have n21 : ¬ h < 21 := by omega
    rw [getTimeOfDayFromHour_int h (by omega) (by omega)]
    simp [n12, n18, n21]

/-- C6 witness: instantiating the universally-quantified conjuncts at
concrete hours. -/
theorem c6_hour_classification_witness :
    getTimeOfDayFromHour 5 = some "morning"
    ∧ getTimeOfDayFromHour 12 = some "afternoon"
    ∧ getTimeOfDayFromHour 20 = some "evening"
    ∧ getTimeOfDayFromHour 23 = some "night"
    ∧ getTimeOfDayFromHour (mkRat 3 2) = none :=
  ⟨c6_hour_classification.1 5 (by decide) (by decide),
   c6_hour_classification.2.1 12 (by decide) (by decide),
   c6_hour_classification.2.2.1 20 (by decide) (by decide),
   c6_hour_classification.2.2.2.1 23 (by decide) (by decide),
   c6_hour_classification.2.2.2.2.1 (mkRat 3 2) (Or.inl (by decide))⟩

/-- C1: whenever the provider's returned code equals the original file's
content after trimming, `modifyFileWithGrok` returns `updated := false`
with the skip message, performs no effect at all — in particular no
filesystem write, no `git.add`, no `git.commit`, no `git.push` — and the
target file's on-disk content is unchanged. -/
theorem c1_identical_content_short_circuit
    (repoPath targetFile originalCode updatedCode : String)
    (commitMessage : Option String) (statusPostAdd : GitStatus)
    (hne : updatedCode ≠ "") (heq : jsTrim updatedCode = jsTrim originalCode) :
    (modifyFileWithGrok (some repoPath) (some targetFile) true originalCode
        (.ok updatedCode) commitMessage statusPostAdd).1 = []
    ∧ (modifyFileWithGrok (some repoPath) (some targetFile) true originalCode
        (.ok updatedCode) commitMessage statusPostAdd).2 =
      .ok ⟨"Grok AI returned identical content; skipping git operations.",
        false, none⟩
    ∧ applyRepoEffects originalCode
        (modifyFileWithGrok (some repoPath) (some targetFile) true
          originalCode (.ok updatedCode) commitMessage statusPostAdd).1 =
      originalCode := by
  simp only [modifyFileWithGrok, if_neg (by simp : ¬ ¬ True), hne, heq]
  simp [applyRepoEffects]

/-- C1 witness: a concrete run where the provider echoes the original
modulo surrounding whitespace. -/
theorem c1_identical_content_short_circuit_witness :
    "const x = 1;\n" ≠ "" ∧ jsTrim "const x = 1;\n" = jsTrim "const x = 1;" ∧
    (modifyFileWithGrok (some "/repo") (some "sample-test.js") true
        "const x = 1;" (.ok "const x = 1;\n") none ⟨[], []⟩).1 = [] :=
  ⟨by decide, by decide,
    (c1_identical_content_short_circuit "/repo" "sample-test.js"
      "const x = 1;" "const x = 1;\n" none ⟨[], []⟩ (by decide)
      (by decide)).1⟩

lemma parseBatchLoop_entries (fuel : Nat) (cs : List Char) :
    ∀ e ∈ parseBatchLoop fuel cs, e.path ≠ "" ∧ e.code ≠ "" := by
  induction fuel generalizing cs with
  | zero => simp [parseBatchLoop]
  | succ fuel ih =>
      intro e he
      match cs with
      | [] => simp [parseBatchLoop] at he
      | c :: cs' =>
          rw [parseBatchLoop] at he
          split at he
          · split at he
            · rename_i pathChars bodyChars rest heq
              dsimp only at he
              split at he
              · rename_i hcond
                rcases List.mem_cons.mp he with h | h
                · subst h
                  exact hcond
                · exact ih _ e h
              · exact ih _ e he
            · exact ih _ e he
          · exact ih _ e he

lemma jsMapGet_mem (pairs : List (String × String)) (k c : String)
    (h : jsMapGet pairs k = some c) : ∃ p, (p, c) ∈ pairs := by
  have main : ∀ (ps : List (String × String)) (acc : Option String),
      ps.foldl (fun acc p => if p.1 = k then some p.2 else acc) acc = some c →
      (∃ p, (p, c) ∈ ps) ∨ acc = some c := by
    intro ps
    induction ps with
    | nil => intro acc h
             exact Or.inr h
    | cons hd tl ih =>
        intro acc h
        rcases ih _ h with ⟨p, hp⟩ | hacc
        · exact Or.inl ⟨p, List.mem_cons_of_mem _ hp⟩
        · dsimp only at hacc
          by_cases hk : hd.1 = k
          · rw [if_pos hk] at hacc
            refine Or.inl ⟨hd.1, ?_⟩
            have : hd = (hd.1, c) := by
              cases hd
              simpa using hacc
            rw [← this]
            exact List.mem_cons_self _ _
          · rw [if_neg hk] at hacc
            exact Or.inr hacc
  rcases main pairs none h with hp | hbad
  · exact hp
  · cases hbad

lemma parseBatchResponse_empty : parseBatchResponse "" = [] := rfl

/-- C2: whenever the provider reply parses to at least one `FILE:` block,
the batch service succeeds with exactly one entry per originally-submitted
path, in order; a file whose trimmed path matches a parsed block (last
binding wins, as a JavaScript `Map` does) carries that block's updated
code, and every unmatched file carries its original content unchanged. -/
theorem c2_batch_merge_per_file (rawApiKey : String) (files : List FileEntry)
    (responseText : String) (hkeyRaw : rawApiKey ≠ "")
    (hkey : jsTrim rawApiKey ≠ "") (hfiles : files ≠ [])
    (hparse : parseBatchResponse responseText ≠ []) :
    ∃ result,
      requestProjectModification (some rawApiKey) files responseText =
        .ok result
      ∧ result.map FileEntry.path = files.map FileEntry.path
      ∧ result = files.map fun file =>
          { path := file.path
            code := match jsMapGet ((parseBatchResponse responseText).map
                fun f => (jsTrim f.path, f.code)) (jsTrim file.path) with
              | some updatedCode => updatedCode
              | none => file.code } := by
  have hcontent : responseText ≠ "" := by
    intro h
    rw [h, parseBatchResponse_empty] at hparse
    exact hparse rfl
  have hmapeq :
      (files.map fun file =>
        ({ path := file.path
           code := match jsMapGet ((parseBatchResponse responseText).map
               fun f => (jsTrim f.path, f.code)) (jsTrim file.path) with
             | some updatedCode =>
                 if updatedCode = "" then file.code else updatedCode
             | none => file.code } : FileEntry)) =
      files.map fun file =>
        { path := file.path
          code := match jsMapGet ((parseBatchResponse responseText).map
              fun f => (jsTrim f.path, f.code)) (jsTrim file.path) with
            | some updatedCode => updatedCode
            | none => file.code } := by
    apply List.map_congr_left
    intro file _
    cases hget : jsMapGet ((parseBatchResponse responseText).map
        fun f => (jsTrim f.path, f.code)) (jsTrim file.path) with
    | none => rfl
    | some updatedCode =>
        obtain ⟨p, hp⟩ := jsMapGet_mem _ _ _ hget
        obtain ⟨e, he, -, hcode⟩ := by
          simpa using hp
        have : e.code ≠ "" :=
          (parseBatchLoop_entries _ _ e he).2
        rw [hcode] at this
        simp [this]
  have hfe : files.isEmpty = false := by
    simpa [List.isEmpty_iff] using hfiles
  have hpe : (parseBatchResponse responseText).isEmpty = false := by
    simpa [List.isEmpty_iff] using hparse
  refine ⟨_, ?_, ?_, hmapeq⟩
  · simp only [requestProjectModification, hfe, Bool.false_eq_true, if_false,
      extractTextFromResponse, if_neg hcontent, if_neg hkeyRaw, if_neg hkey,
      hpe]
  · rw [List.map_map]
    rfl

/-- C2 witness: three submitted files, a reply with blocks for the first
and third; the middle file falls back to its submitted content. -/
theorem c2_batch_merge_per_file_witness :
    parseBatchResponse
        "FILE: a.js\n```javascript\nnew a\n```\n\nFILE: c.js\n```javascript\nnew c\n```" ≠ []
    ∧ ∃ result,
        requestProjectModification (some "key")
          [⟨"a.js", "old a"⟩, ⟨"b.js", "old b"⟩, ⟨"c.js", "old c"⟩]
          "FILE: a.js\n```javascript\nnew a\n```\n\nFILE: c.js\n```javascript\nnew c\n```" =
          .ok result
        ∧ result.map FileEntry.path =
          ([⟨"a.js", "old a"⟩, ⟨"b.js", "old b"⟩, ⟨"c.js", "old c"⟩] :
            List FileEntry).map FileEntry.path
        ∧ result =
          ([⟨"a.js", "old a"⟩, ⟨"b.js", "old b"⟩, ⟨"c.js", "old c"⟩] :
            List FileEntry).map fun file =>
            { path := file.path
              code := match jsMapGet ((parseBatchResponse
                  "FILE: a.js\n```javascript\nnew a\n```\n\nFILE: c.js\n```javascript\nnew c\n```").map
                  fun f => (jsTrim f.path, f.code)) (jsTrim file.path) with
                | some updatedCode => updatedCode
                | none => file.code } :=
  ⟨by decide,
    c2_batch_merge_per_file "key"
      [⟨"a.js", "old a"⟩, ⟨"b.js", "old b"⟩, ⟨"c.js", "old c"⟩]
      "FILE: a.js\n```javascript\nnew a\n```\n\nFILE: c.js\n```javascript\nnew c\n```"
      (by decide) (by decide) (by decide) (by decide)⟩

/-- C3 counterexample: with a nonempty provider reply that parses to zero
`FILE:` blocks, the surfaced operational error is *not* the claimed
"Grok AI did not return any file updates": the 502 raised inside the `try`
block is caught by the service's own `catch`, which replaces it with
"Failed to contact Grok AI service". -/
theorem c3_zero_blocks_message_counterexample :
    parseBatchResponse "no file blocks here" = []
    ∧ requestProjectModification (some "key") [⟨"a.js", "x"⟩]
        "no file blocks here" =
      .error ⟨"Failed to contact Grok AI service", 502⟩
    ∧ requestProjectModification (some "key") [⟨"a.js", "x"⟩]
        "no file blocks here" ≠
      .error ⟨"Grok AI did not return any file updates", 502⟩ := by
  refine ⟨by decide, by decide, by decide⟩

/-- C3 (amended): when the provider returns nonempty content that parses to
zero `FILE:` blocks, the call fails with an operational 502; internally an
`AppError("Grok AI did not return any file updates", 502)` is raised, but
the surrounding catch replaces it, so the surfaced error message is
"Failed to contact Grok AI service". -/
theorem c3_zero_blocks_502 (rawApiKey : String) (files : List FileEntry)
    (responseText : String) (hkeyRaw : rawApiKey ≠ "")
    (hkey : jsTrim rawApiKey ≠ "") (hfiles : files ≠ [])
    (hcontent : responseText ≠ "")
    (hparse : parseBatchResponse responseText = []) :
    requestProjectModification (some rawApiKey) files responseText =
      .error ⟨"Failed to contact Grok AI service", 502⟩ := by
  have hfe : files.isEmpty = false := by
    simpa [List.isEmpty_iff] using hfiles
  simp only [requestProjectModification, hfe, Bool.false_eq_true, if_false,
    extractTextFromResponse, if_neg hcontent, if_neg hkeyRaw, if_neg hkey,
    hparse, List.isEmpty_nil, if_true]

/-- C3 witness: a concrete instantiation of the amended statement. -/
theorem c3_zero_blocks_502_witness :
    "hello there" ≠ "" ∧ parseBatchResponse "hello there" = []
    ∧ requestProjectModification (some "key") [⟨"a.js", "x"⟩]
        "hello there" =
      .error ⟨"Failed to contact Grok AI service", 502⟩ :=
  ⟨by decide, by decide,
    c3_zero_blocks_502 "key" [⟨"a.js", "x"⟩] "hello there" (by decide)
      (by decide) (by decide) (by decide) (by decide)⟩

/-- C4: when the target file's resolution against the repository root lies
outside that root, the CLI's single-file flow throws the
`resolvePathInRepo` error before doing anything observable: the effect list
is empty, so in particular no HTTP request is issued and no file is
written. -/
theorem c4_outside_root_throws_before_network
    (repoRoot gitWorkdir : List String) (env : SingleFileEnv)
    (targetFile : JsPathInput) (sourceCode : String)
    (apiProcessedCode : Option String) (diffStatus : Int) (diffErr : Bool)
    (gitExit : List String → Int)
    (hout : withinRoot repoRoot (jsResolve repoRoot targetFile) = false) :
    (processSingleFile repoRoot gitWorkdir env targetFile sourceCode
        apiProcessedCode diffStatus diffErr gitExit).1 = []
    ∧ (processSingleFile repoRoot gitWorkdir env targetFile sourceCode
        apiProcessedCode diffStatus diffErr gitExit).2 =
      .error ("Path " ++ renderPathInput targetFile ++
        " resolves outside of repository root (" ++ renderAbs repoRoot ++
        ")")
    ∧ (∀ url, CliEffect.httpPost url ∉
        (processSingleFile repoRoot gitWorkdir env targetFile sourceCode
          apiProcessedCode diffStatus diffErr gitExit).1)
    ∧ (∀ p c, CliEffect.fsWrite p c ∉
        (processSingleFile repoRoot gitWorkdir env targetFile sourceCode
          apiProcessedCode diffStatus diffErr gitExit).1) := by
  simp [processSingleFile, resolvePathInRepo, hout]

/-- C4 witness: `--file ../../etc/passwd` resolved against `/home/app`
escapes the root; the run performs no effect. -/
theorem c4_outside_root_throws_before_network_witness :
    withinRoot ["home", "app"]
        (jsResolve ["home", "app"] (.rel ["..", "..", "etc", "passwd"])) =
      false
    ∧ (processSingleFile ["home", "app"] ["home", "app"]
        ⟨"http://127.0.0.1:3000/api/grok/refactor", none, none, none⟩
        (.rel ["..", "..", "etc", "passwd"]) "x" (some "y") 1 false
        (fun _ => 0)).1 = [] :=
  ⟨by decide,
    (c4_outside_root_throws_before_network ["home", "app"] ["home", "app"]
      ⟨"http://127.0.0.1:3000/api/grok/refactor", none, none, none⟩
      (.rel ["..", "..", "etc", "passwd"]) "x" (some "y") 1 false
      (fun _ => 0) (by decide)).1⟩

/-- C9: in the extended revision of the CLI script, the single-file flow's
final success log is reached only after a successful push and references
`relativePathForGit`, which is not among the names in scope there; the
statement therefore throws instead of logging, the push has already
happened, and the top level logs the error and exits with status 1. -/
theorem c9_final_log_reference_error (repoRoot gitWorkdir : List String)
    (env : SingleFileEnv) (targetFile : JsPathInput)
    (sourceCode : String) (updatedCode : String)
    (diffErr : Bool) (gitExit : List String → Int)
    (targetFilePath gitRelativePath : List String)
    (hres : resolvePathInRepo repoRoot targetFile = .ok targetFilePath)
    (hrel : relativeToGitWorkdir repoRoot gitWorkdir (.abs targetFilePath) =
      .ok gitRelativePath)
    (htrim : jsTrim updatedCode ≠ "") (hchanged : updatedCode ≠ sourceCode)
    (hgit : ∀ args, gitExit args = 0) :
    (processSingleFile repoRoot gitWorkdir env targetFile sourceCode
        (some updatedCode) 1 diffErr gitExit).2 =
      .error "ReferenceError: relativePathForGit is not defined"
    ∧ CliEffect.gitRun (buildPushArgs env.gitRemote env.gitBranch) ∈
      (processSingleFile repoRoot gitWorkdir env targetFile sourceCode
        (some updatedCode) 1 diffErr gitExit).1
    ∧ (cliMainSingleFile repoRoot gitWorkdir env targetFile sourceCode
        (some updatedCode) 1 diffErr gitExit).exitCode = 1
    ∧ (cliMainSingleFile repoRoot gitWorkdir env targetFile sourceCode
        (some updatedCode) 1 diffErr gitExit).loggedError =
      some "ReferenceError: relativePathForGit is not defined" := by
  have hscope : singleFileScopeNames.contains "relativePathForGit" = false :=
    by decide
  have hscope2 : "relativePathForGit" ∉ singleFileScopeNames := by decide
  simp [processSingleFile, cliMainSingleFile, hres, hrel, htrim, hchanged,
    hgit, hscope, hscope2]

/-- C9 witness: a concrete successful run up to the push, ending in the
reference error and exit status 1. -/
theorem c9_final_log_reference_error_witness :
    resolvePathInRepo ["repo"] (.rel ["sample-test.js"]) =
      .ok ["repo", "sample-test.js"]
    ∧ relativeToGitWorkdir ["repo"] ["repo"] (.abs ["repo", "sample-test.js"])
      = .ok ["sample-test.js"]
    ∧ jsTrim "new code" ≠ "" ∧ "new code" ≠ "old code"
    ∧ (cliMainSingleFile ["repo"] ["repo"]
        ⟨"http://127.0.0.1:3000/api/grok/refactor", none, none, none⟩
        (.rel ["sample-test.js"]) "old code" (some "new code") 1 false
        (fun _ => 0)).exitCode = 1 :=
  ⟨by decide, by decide, by decide, by decide,
    (c9_final_log_reference_error ["repo"] ["repo"]
      ⟨"http://127.0.0.1:3000/api/grok/refactor", none, none, none⟩
      (.rel ["sample-test.js"]) "old code" "new code" false (fun _ => 0)
      ["repo", "sample-test.js"] ["sample-test.js"] (by decide) (by decide)
      (by decide) (by decide) (fun _ => rfl)).2.2.1⟩

lemma char_toNat_ofNat_valid (n : Nat) (h : n.isValidChar) :
    (Char.ofNat n).toNat = n := by
  simp [Char.ofNat, h, Char.toNat, Char.ofNatAux, UInt32.toNat,
    BitVec.toNat_ofNatLt]

lemma char_toLower_eq (c : Char) :
    c.toLower =
      if c.toNat ≥ 65 ∧ c.toNat ≤ 90 then Char.ofNat (c.toNat + 32) else c :=
  rfl

lemma char_toUpper_eq (c : Char) :
    c.toUpper =
      if c.toNat ≥ 97 ∧ c.toNat ≤ 122 then Char.ofNat (c.toNat - 32) else c :=
  rfl

lemma char_toLower_toUpper (c : Char) : c.toUpper.toLower = c.toLower := by
  by_cases h1 : c.toNat ≥ 97 ∧ c.toNat ≤ 122
  · have hv : (c.toNat - 32).isValidChar := Or.inl (by omega)
    have he : (Char.ofNat (c.toNat - 32)).toNat = c.toNat - 32 :=
      char_toNat_ofNat_valid _ hv
    rw [char_toUpper_eq, if_pos h1, char_toLower_eq, he, if_pos (by omega),
      char_toLower_eq, if_neg (by omega)]
    have h32 : c.toNat - 32 + 32 = c.toNat := by omega
    rw [h32, Char.ofNat_toNat]
  · rw [char_toUpper_eq, if_neg h1]

lemma char_toLower_cases (c : Char) :
    c.toLower = c ∨ (c.toLower.toNat ≥ 97 ∧ c.toLower.toNat ≤ 122) := by
  by_cases h1 : c.toNat ≥ 65 ∧ c.toNat ≤ 90
  · right
    have hv : (c.toNat + 32).isValidChar := Or.inl (by omega)
    have he : (Char.ofNat (c.toNat + 32)).toNat = c.toNat + 32 :=
      char_toNat_ofNat_valid _ hv
    rw [char_toLower_eq, if_pos h1, he]
    omega
  · left
    rw [char_toLower_eq, if_neg h1]

lemma char_toUpper_cases (c : Char) :
    c.toUpper = c ∨ (c.toUpper.toNat ≥ 65 ∧ c.toUpper.toNat ≤ 90) := by
  by_cases h1 : c.toNat ≥ 97 ∧ c.toNat ≤ 122
  · right
    have hv : (c.toNat - 32).isValidChar := Or.inl (by omega)
    have he : (Char.ofNat (c.toNat - 32)).toNat = c.toNat - 32 :=
      char_toNat_ofNat_valid _ hv
    rw [char_toUpper_eq, if_pos h1, he]
    omega
  · left
    rw [char_toUpper_eq, if_neg h1]

lemma char_toLower_idem (c : Char) : c.toLower.toLower = c.toLower := by
  rcases char_toLower_cases c with h | h
  · rw [h]
    exact h
  · rw [char_toLower_eq c.toLower, if_neg (by omega)]

lemma jsWsChar_toNat (c : Char) (h : jsWsChar c = true) : c.toNat ≤ 32 := by
  simp only [jsWsChar, decide_eq_true_eq] at h
  rcases h with h | h | h | h | h | h <;> subst h <;> decide

lemma nonws_toLower (c : Char) (h : jsWsChar c = false) :
    jsWsChar c.toLower = false := by
  rcases char_toLower_cases c with hc | hc
  · rw [hc]
    exact h
  · by_contra hbad
    have := jsWsChar_toNat c.toLower (by
      cases hh : jsWsChar c.toLower
      · exact absurd hh hbad
      · rfl)
    omega

lemma nonws_toUpper (c : Char) (h : jsWsChar c = false) :
    jsWsChar c.toUpper = false := by
  rcases char_toUpper_cases c with hc | hc
  · rw [hc]
    exact h
  · by_contra hbad
    have := jsWsChar_toNat c.toUpper (by
      cases hh : jsWsChar c.toUpper
      · exact absurd hh hbad
      · rfl)
    omega

lemma ascii_jsLowerChar (c : Char) (h : c.toNat ≤ 127) :
    jsLowerChar c = c.toLower := by
  unfold jsLowerChar
  rw [char_toLower_eq]
  by_cases h1 : 65 ≤ c.toNat ∧ c.toNat ≤ 90
  · rw [if_pos h1, if_pos h1]
  · rw [if_neg h1,
      if_neg (show ¬ (0xC0 ≤ c.toNat ∧ c.toNat ≤ 0xDE ∧ c.toNat ≠ 0xD7) by
        omega),
      if_neg (show ¬ c.toNat = 0x178 by omega), if_neg h1]

lemma ascii_jsUpperChar (c : Char) (h : c.toNat ≤ 127) :
    jsUpperChar c = [c.toUpper] := by
  unfold jsUpperChar
  rw [char_toUpper_eq]
  by_cases h1 : 97 ≤ c.toNat ∧ c.toNat ≤ 122
  · rw [if_pos h1, if_pos h1]
  · rw [if_neg h1, if_neg (show ¬ c.toNat = 0xDF by omega),
      if_neg (show ¬ (0xE0 ≤ c.toNat ∧ c.toNat ≤ 0xFE ∧ c.toNat ≠ 0xF7) by
        omega),
      if_neg (show ¬ c.toNat = 0xFF by omega), if_neg h1]

lemma toLower_ascii (c : Char) (h : c.toNat ≤ 127) : c.toLower.toNat ≤ 127
    := by
  rcases char_toLower_cases c with hc | hc
  · rw [hc]
    exact h
  · omega

lemma toUpper_ascii (c : Char) (h : c.toNat ≤ 127) : c.toUpper.toNat ≤ 127
    := by
  rcases char_toUpper_cases c with hc | hc
  · rw [hc]
    exact h
  · omega

lemma jsLowerChar_ascii (c : Char) (h : c.toNat ≤ 127) :
    (jsLowerChar c).toNat ≤ 127 := by
  rw [ascii_jsLowerChar c h]
  exact toLower_ascii c h

lemma jsUpperChar_ne_nil (c : Char) : jsUpperChar c ≠ [] := by
  unfold jsUpperChar
  repeat' split
  all_goals simp

lemma jsUpperChar_mem_toNat (c d : Char) (hd : d ∈ jsUpperChar c) :
    d = c ∨ 65 ≤ d.toNat := by
  unfold jsUpperChar at hd
  split at hd
  · rename_i h1
    have he := char_toNat_ofNat_valid (c.toNat - 32) (Or.inl (by omega))
    simp only [List.mem_singleton] at hd
    subst hd
    exact Or.inr (by omega)
  · split at hd
    · simp only [List.mem_cons, List.not_mem_nil, or_false] at hd
      rcases hd with hd | hd <;> subst hd <;> exact Or.inr (by decide)
    · split at hd
      · rename_i h3
        have he := char_toNat_ofNat_valid (c.toNat - 32) (Or.inl (by omega))
        simp only [List.mem_singleton] at hd
        subst hd
        exact Or.inr (by omega)
      · split at hd
        · simp only [List.mem_singleton] at hd
          subst hd
          exact Or.inr (by decide)
        · simp only [List.mem_singleton] at hd
          exact Or.inl hd

lemma jsUpperChar_nonws (c : Char) (h : jsWsChar c = false) :
    ∀ d ∈ jsUpperChar c, jsWsChar d = false := by
  intro d hd
  rcases jsUpperChar_mem_toNat c d hd with h1 | h1
  · rw [h1]
    exact h
  · cases hw : jsWsChar d
    · rfl
    · exact absurd (jsWsChar_toNat d hw) (by omega)

lemma jsLowerChar_toNat_cases (c : Char) :
    jsLowerChar c = c ∨ 97 ≤ (jsLowerChar c).toNat := by
  unfold jsLowerChar
  split
  · rename_i h1
    have he := char_toNat_ofNat_valid (c.toNat + 32) (Or.inl (by omega))
    exact Or.inr (by omega)
  · split
    · rename_i h2
      have he := char_toNat_ofNat_valid (c.toNat + 32) (Or.inl (by omega))
      exact Or.inr (by omega)
    · split
      · exact Or.inr (by decide)
      · exact Or.inl rfl

lemma jsLowerChar_nonws (c : Char) (h : jsWsChar c = false) :
    jsWsChar (jsLowerChar c) = false := by
  rcases jsLowerChar_toNat_cases c with h1 | h1
  · rw [h1]
    exact h
  · cases hw : jsWsChar (jsLowerChar c)
    · rfl
    · exact absurd (jsWsChar_toNat _ hw) (by omega)

lemma capChars_map_jsLower (prev : Option Char) (cs : List Char)
    (h : ∀ c ∈ cs, c.toNat ≤ 127) :
    (capChars prev cs).map jsLowerChar = cs.map jsLowerChar := by
  induction cs generalizing prev with
  | nil => rfl
  | cons c rest ih =>
      have hc : c.toNat ≤ 127 := h c (List.mem_cons_self _ _)
      have hrest : ∀ d ∈ rest, d.toNat ≤ 127 :=
        fun d hd => h d (List.mem_cons_of_mem _ hd)
      have hup : (jsUpperChar c).map jsLowerChar = [jsLowerChar c] := by
        rw [ascii_jsUpperChar c hc]
        simp only [List.map_cons, List.map_nil]
        rw [ascii_jsLowerChar _ (toUpper_ascii c hc), char_toLower_toUpper,
          ascii_jsLowerChar c hc]
      simp only [capChars, List.map_append, ih (some c) hrest, List.map_cons]
      split
      · rw [hup]
        rfl
      · rfl

lemma map_jsLower_idem (cs : List Char) (h : ∀ c ∈ cs, c.toNat ≤ 127) :
    (cs.map jsLowerChar).map jsLowerChar = cs.map jsLowerChar := by
  rw [List.map_map]
  apply List.map_congr_left
  intro c hc
  have h1 : c.toNat ≤ 127 := h c hc
  show jsLowerChar (jsLowerChar c) = jsLowerChar c
  rw [ascii_jsLowerChar c h1, ascii_jsLowerChar _ (toLower_ascii c h1),
    char_toLower_idem]

lemma capWord_idem_ascii (w : List Char) (h : ∀ c ∈ w, c.toNat ≤ 127) :
    capWord (capWord w) = capWord w := by
  unfold capWord
  rw [capChars_map_jsLower none (w.map jsLowerChar) (by
      intro c hc
      obtain ⟨d, hd, rfl⟩ := List.mem_map.mp hc
      exact jsLowerChar_ascii d (h d hd)),
    map_jsLower_idem w h]

lemma capChars_ascii (prev : Option Char) (cs : List Char)
    (h : ∀ c ∈ cs, c.toNat ≤ 127) :
    ∀ d ∈ capChars prev cs, d.toNat ≤ 127 := by
  induction cs generalizing prev with
  | nil => simp [capChars]
  | cons c rest ih =>
      have hc : c.toNat ≤ 127 := h c (List.mem_cons_self _ _)
      intro d hd
      simp only [capChars, List.mem_append] at hd
      rcases hd with hd | hd
      · revert hd
        split
        · rw [ascii_jsUpperChar c hc]
          intro hd
          simp only [List.mem_singleton] at hd
          subst hd
          exact toUpper_ascii c hc
        · intro hd
          simp only [List.mem_singleton] at hd
          subst hd
          exact hc
      · exact ih (some c) (fun e he => h e (List.mem_cons_of_mem _ he)) d hd

lemma capWord_ascii (w : List Char) (h : ∀ c ∈ w, c.toNat ≤ 127) :
    ∀ d ∈ capWord w, d.toNat ≤ 127 := by
  apply capChars_ascii
  intro c hc
  obtain ⟨d, hd, rfl⟩ := List.mem_map.mp hc
  exact jsLowerChar_ascii d (h d hd)

lemma capWord_ne_nil (w : List Char) (h : w ≠ []) : capWord w ≠ [] := by
  cases w with
  | nil => exact absurd rfl h
  | cons c rest =>
      unfold capWord
      simp only [List.map_cons, capChars]
      intro hbad
      have h1 := (List.append_eq_nil.mp hbad).1
      revert h1
      split
      · exact jsUpperChar_ne_nil _
      · simp

lemma capChars_nonws (prev : Option Char) (cs : List Char)
    (h : ∀ c ∈ cs, jsWsChar c = false) :
    ∀ d ∈ capChars prev cs, jsWsChar d = false := by
  induction cs generalizing prev with
  | nil => simp [capChars]
  | cons c rest ih =>
      intro d hd
      simp only [capChars, List.mem_append] at hd
      rcases hd with hd | hd
      · revert hd
        split
        · exact fun hd =>
            jsUpperChar_nonws c (h c (List.mem_cons_self _ _)) d hd
        · intro hd
          simp only [List.mem_singleton] at hd
          rw [hd]
          exact h c (List.mem_cons_self _ _)
      · exact ih (some c) (fun e he => h e (List.mem_cons_of_mem _ he)) d hd

lemma capWord_nonws (w : List Char) (h : ∀ c ∈ w, jsWsChar c = false) :
    ∀ c ∈ capWord w, jsWsChar c = false := by
  apply capChars_nonws
  intro c hc
  obtain ⟨d, hd, rfl⟩ := List.mem_map.mp hc
  exact jsLowerChar_nonws d (h d hd)

lemma mem_of_mem_trimL (cs : List Char) (c : Char) (h : c ∈ trimL cs) :
    c ∈ cs := by
  unfold trimL at h
  rw [List.mem_reverse] at h
  have h2 : c ∈ (cs.dropWhile jsWsChar).reverse :=
    (List.dropWhile_suffix jsWsChar).subset h
  rw [List.mem_reverse] at h2
  exact (List.dropWhile_suffix jsWsChar).subset h2

lemma mem_of_mem_collapseGo (b : Bool) (cs : List Char) (c : Char)
    (h : c ∈ collapseGo b cs) : c ∈ cs ∨ c = ' ' := by
  induction cs generalizing b with
  | nil => simp [collapseGo] at h
  | cons d rest ih =>
      rw [collapseGo] at h
      split at h
      · split at h
        · rcases ih true h with h1 | h1
          · exact Or.inl (List.mem_cons_of_mem _ h1)
          · exact Or.inr h1
        · rcases List.mem_cons.mp h with h1 | h1
          · exact Or.inr h1
          · rcases ih true h1 with h2 | h2
            · exact Or.inl (List.mem_cons_of_mem _ h2)
            · exact Or.inr h2
      · rcases List.mem_cons.mp h with h1 | h1
        · exact Or.inl (by rw [h1]; exact List.mem_cons_self _ _)
        · rcases ih false h1 with h2 | h2
          · exact Or.inl (List.mem_cons_of_mem _ h2)
          · exact Or.inr h2

lemma splitSp_ne_nil (t : List Char) : splitSp t ≠ [] := by
  induction t with
  | nil => simp [splitSp]
  | cons c rest ih =>
      simp only [splitSp]
      split
      · simp
      · split
        · simp
        · simp

lemma mem_of_mem_splitSp (t : List Char) :
    ∀ w ∈ splitSp t, ∀ c ∈ w, c ∈ t := by
  induction t with
  | nil =>
      intro w hw c hc
      simp only [splitSp, List.mem_singleton] at hw
      subst hw
      simp at hc
  | cons d rest ih =>
      intro w hw c hc
      rw [splitSp] at hw
      split at hw
      · rcases List.mem_cons.mp hw with h1 | h1
        · subst h1
          simp at hc
        · exact List.mem_cons_of_mem _ (ih w h1 c hc)
      · cases hsp : splitSp rest with
        | nil => exact absurd hsp (splitSp_ne_nil rest)
        | cons u us =>
            rw [hsp] at hw
            rcases List.mem_cons.mp hw with h1 | h1
            · subst h1
              rcases List.mem_cons.mp hc with h2 | h2
              · rw [h2]
                exact List.mem_cons_self _ _
              · exact List.mem_cons_of_mem _ (ih u (by
                  rw [hsp]
                  exact List.mem_cons_self _ _) c h2)
            · exact List.mem_cons_of_mem _ (ih w (by
                rw [hsp]
                exact List.mem_cons_of_mem _ h1) c hc)

lemma splitSp_append_word (w t : List Char) (hw : ∀ c ∈ w, c ≠ ' ') :
    ∃ u us, splitSp t = u :: us ∧ splitSp (w ++ t) = (w ++ u) :: us := by
  induction w with
  | nil =>
      cases hsp : splitSp t with
      | nil => exact absurd hsp (splitSp_ne_nil t)
      | cons u us => exact ⟨u, us, rfl, by simpa using hsp⟩
  | cons c w' ih =>
      obtain ⟨u, us, ht, happ⟩ :=
        ih fun d hd => hw d (List.mem_cons_of_mem _ hd)
      refine ⟨u, us, ht, ?_⟩
      have hc : c ≠ ' ' := hw c (List.mem_cons_self _ _)
      simp only [List.cons_append, splitSp, if_neg hc, List.append_eq, happ]

lemma splitSp_single_word (w : List Char) (hw : ∀ c ∈ w, c ≠ ' ') :
    splitSp w = [w] := by
  obtain ⟨u, us, ht, happ⟩ := splitSp_append_word w [] hw
  simp only [splitSp] at ht
  cases ht
  simpa using happ

lemma splitSp_intercalate (ws : List (List Char))
    (h : ∀ w ∈ ws, ∀ c ∈ w, c ≠ ' ') (hne : ws ≠ []) :
    splitSp (intercalateSp ws) = ws := by
  induction ws with
  | nil => exact absurd rfl hne
  | cons w rest ih =>
      cases rest with
      | nil =>
          simpa [intercalateSp] using
            splitSp_single_word w (h w (List.mem_cons_self _ _))
      | cons w2 rest' =>
          have hi : intercalateSp (w :: w2 :: rest') =
              w ++ ' ' :: intercalateSp (w2 :: rest') := rfl
          rw [hi]
          obtain ⟨u, us, ht, happ⟩ := splitSp_append_word w
            (' ' :: intercalateSp (w2 :: rest'))
            (h w (List.mem_cons_self _ _))
          have hsp : splitSp (' ' :: intercalateSp (w2 :: rest')) =
              [] :: splitSp (intercalateSp (w2 :: rest')) := by
            simp [splitSp]
          rw [hsp] at ht
          cases ht
          rw [happ, List.append_nil]
          rw [ih (fun v hv => h v (List.mem_cons_of_mem _ hv)) (by simp)]

lemma collapseGo_append_nonws (w t : List Char)
    (hw : ∀ c ∈ w, jsWsChar c = false) :
    collapseGo false (w ++ t) = w ++ collapseGo false t := by
  induction w with
  | nil => rfl
  | cons c w' ih =>
      have hc : jsWsChar c = false := hw c (List.mem_cons_self _ _)
      simp only [List.cons_append, collapseGo, hc, Bool.false_eq_true,
        if_false, List.cons.injEq, true_and]
      exact ih fun d hd => hw d (List.mem_cons_of_mem _ hd)

lemma collapseGo_cons_nonws (b : Bool) (c : Char) (t : List Char)
    (h : jsWsChar c = false) :
    collapseGo b (c :: t) = c :: collapseGo false t := by
  simp [collapseGo, h]

lemma collapseGo_intercalate (ws : List (List Char))
    (h : ∀ w ∈ ws, w ≠ [] ∧ ∀ c ∈ w, jsWsChar c = false) (hne : ws ≠ []) :
    collapseGo false (intercalateSp ws) = intercalateSp ws := by
  induction ws with
  | nil => exact absurd rfl hne
  | cons w rest ih =>
      cases rest with
      | nil =>
          have : intercalateSp [w] = w ++ [] := by simp [intercalateSp]
          rw [this, collapseGo_append_nonws w []
            (h w (List.mem_cons_self _ _)).2]
          rfl
      | cons w2 rest' =>
          have hi : intercalateSp (w :: w2 :: rest') =
              w ++ ' ' :: intercalateSp (w2 :: rest') := rfl
          rw [hi, collapseGo_append_nonws w _
            (h w (List.mem_cons_self _ _)).2]
          have hsp : collapseGo false (' ' :: intercalateSp (w2 :: rest')) =
              ' ' :: collapseGo true (intercalateSp (w2 :: rest')) := by
            simp [collapseGo, jsWsChar]
          rw [hsp]
          obtain ⟨c2, w2', hw2⟩ :
              ∃ c2 w2', w2 = c2 :: w2' := by
            obtain ⟨hne2, -⟩ := h w2 (List.mem_cons_of_mem _
              (List.mem_cons_self _ _))
            cases w2 with
            | nil => exact absurd rfl hne2
            | cons a b => exact ⟨a, b, rfl⟩
          have hc2 : jsWsChar c2 = false := by
            have := (h w2 (List.mem_cons_of_mem _
              (List.mem_cons_self _ _))).2
            rw [hw2] at this
            exact this c2 (List.mem_cons_self _ _)
          obtain ⟨t', ht'⟩ : ∃ t',
              intercalateSp (w2 :: rest') = c2 :: t' := by
            cases rest' with
            | nil => exact ⟨w2', by simp [intercalateSp, hw2]⟩
            | cons w3 rest'' =>
                exact ⟨w2' ++ ' ' :: intercalateSp (w3 :: rest''),
                  by simp [intercalateSp, hw2]⟩
          rw [ht', collapseGo_cons_nonws true c2 t' hc2,
            ← collapseGo_cons_nonws false c2 t' hc2, ← ht',
            ih (fun v hv => h v (List.mem_cons_of_mem _ hv)) (by simp)]

lemma dropWhile_eq_self_of_head {p : Char → Bool} (l : List Char)
    (h : ∀ c, l.head? = some c → p c = false) : l.dropWhile p = l := by
  cases l with
  | nil => rfl
  | cons c rest =>
      rw [List.dropWhile_cons, if_neg]
      simp [h c rfl]

lemma trimL_fix (t : List Char)
    (hh : ∀ c, t.head? = some c → jsWsChar c = false)
    (hl : ∀ c, t.getLast? = some c → jsWsChar c = false) : trimL t = t := by
  unfold trimL
  rw [dropWhile_eq_self_of_head t hh]
  rw [dropWhile_eq_self_of_head t.reverse
    (fun c hc => hl c (by rwa [List.head?_reverse] at hc))]
  exact List.reverse_reverse t

lemma head_dropWhile_nonws (l : List Char) (c : Char)
    (h : (l.dropWhile jsWsChar).head? = some c) : jsWsChar c = false := by
  have := List.head?_dropWhile_not jsWsChar l
  rw [h] at this
  exact this

lemma getLast_suffix_eq (pre t : List Char) (c : Char)
    (h : t.getLast? = some c) : (pre ++ t).getLast? = some c := by
  rw [List.getLast?_append, h]
  rfl

lemma trimL_head (cs : List Char) (c : Char)
    (h : (trimL cs).head? = some c) : jsWsChar c = false := by
  unfold trimL at h
  rw [List.head?_reverse] at h
  obtain ⟨pre, hpre⟩ :=
    List.dropWhile_suffix (l := (cs.dropWhile jsWsChar).reverse)
      (p := jsWsChar)
  have hy : ((cs.dropWhile jsWsChar).reverse).getLast? = some c := by
    rw [← hpre]
    exact getLast_suffix_eq _ _ _ h
  rw [List.getLast?_reverse] at hy
  exact head_dropWhile_nonws cs c hy

lemma trimL_getLast (cs : List Char) (c : Char)
    (h : (trimL cs).getLast? = some c) : jsWsChar c = false := by
  unfold trimL at h
  rw [List.getLast?_reverse] at h
  exact head_dropWhile_nonws (cs.dropWhile jsWsChar).reverse c h

lemma collapse_split_good (l : List Char)
    (hlast : ∀ c, l.getLast? = some c → jsWsChar c = false) :
    (l ≠ [] → ∀ w ∈ splitSp (collapseGo true l),
      w ≠ [] ∧ ∀ c ∈ w, jsWsChar c = false)
    ∧ (∃ u us, splitSp (collapseGo false l) = u :: us
        ∧ (∀ c ∈ u, jsWsChar c = false)
        ∧ ∀ w ∈ us, w ≠ [] ∧ ∀ c ∈ w, jsWsChar c = false) := by
  induction l with
  | nil =>
      refine ⟨fun h => absurd rfl h, [], [], ?_, ?_, ?_⟩ <;> simp [splitSp]
  | cons c rest ih =>
      have hrest_last : rest ≠ [] →
          ∀ d, rest.getLast? = some d → jsWsChar d = false := by
        intro hne d hd
        apply hlast d
        cases rest with
        | nil => exact absurd rfl hne
        | cons e tail => rwa [List.getLast?_cons_cons]
      by_cases hc : jsWsChar c = true
      · have hrne : rest ≠ [] := by
          intro hr
          subst hr
          have := hlast c (by simp)
          rw [hc] at this
          cases this
        have ihr := (ih (hrest_last hrne)).1 hrne
        constructor
        · intro _
          have : collapseGo true (c :: rest) = collapseGo true rest := by
            simp [collapseGo, hc]
          rw [this]
          exact ihr
        · have : collapseGo false (c :: rest) =
              ' ' :: collapseGo true rest := by
            simp [collapseGo, hc]
          rw [this]
          have hsp : splitSp (' ' :: collapseGo true rest) =
              [] :: splitSp (collapseGo true rest) := by
            simp [splitSp]
          rw [hsp]
          exact ⟨[], splitSp (collapseGo true rest), rfl, by simp, ihr⟩
      · have hc' : jsWsChar c = false := by
          cases hcc : jsWsChar c
          · rfl
          · exact absurd hcc hc
        have hcsp : c ≠ ' ' := by
          intro he
          subst he
          simp [jsWsChar] at hc'
        obtain ⟨u, us, hsp, hu, hus⟩ := (ih (by
          intro d hd
          cases rest with
          | nil => simp at hd
          | cons e tail =>
              exact hrest_last (by simp) d hd)).2
        have hcol : collapseGo false (c :: rest) =
            c :: collapseGo false rest :=
          collapseGo_cons_nonws false c rest hc'
        have hcolT : collapseGo true (c :: rest) =
            c :: collapseGo false rest :=
          collapseGo_cons_nonws true c rest hc'
        have hspc : splitSp (c :: collapseGo false rest) =
            (c :: u) :: us := by
          simp only [splitSp, if_neg hcsp, hsp]
        constructor
        · intro _
          rw [hcolT, hspc]
          intro w hw
          rcases List.mem_cons.mp hw with hw | hw
          · subst hw
            refine ⟨by simp, ?_⟩
            intro d hd
            rcases List.mem_cons.mp hd with hd | hd
            · subst hd
              exact hc'
            · exact hu d hd
          · exact hus w hw
        · rw [hcol, hspc]
          refine ⟨c :: u, us, rfl, ?_, hus⟩
          intro d hd
          rcases List.mem_cons.mp hd with hd | hd
          · subst hd
            exact hc'
          · exact hu d hd

lemma capitalizeL_words (cs : List Char) (hne : trimL cs ≠ []) :
    splitSp (collapseGo false (trimL cs)) ≠ []
    ∧ ∀ w ∈ splitSp (collapseGo false (trimL cs)),
        w ≠ [] ∧ ∀ c ∈ w, jsWsChar c = false := by
  obtain ⟨c, rest, hl⟩ : ∃ c rest, trimL cs = c :: rest := by
    cases h : trimL cs with
    | nil => exact absurd h hne
    | cons a b => exact ⟨a, b, rfl⟩
  have hc : jsWsChar c = false := trimL_head cs c (by rw [hl]; rfl)
  have hcsp : c ≠ ' ' := by
    intro he
    subst he
    simp [jsWsChar] at hc
  have hrest_last : ∀ d, rest.getLast? = some d → jsWsChar d = false := by
    intro d hd
    apply trimL_getLast cs d
    rw [hl]
    cases rest with
    | nil => simp at hd
    | cons e tail => rwa [List.getLast?_cons_cons]
  obtain ⟨u, us, hsp, hu, hus⟩ := (collapse_split_good rest hrest_last).2
  have hcol : collapseGo false (c :: rest) = c :: collapseGo false rest :=
    collapseGo_cons_nonws false c rest hc
  have hspc : splitSp (c :: collapseGo false rest) = (c :: u) :: us := by
    simp only [splitSp, if_neg hcsp, hsp]
  rw [hl, hcol, hspc]
  refine ⟨by simp, ?_⟩
  intro w hw
  rcases List.mem_cons.mp hw with hw | hw
  · subst hw
    refine ⟨by simp, ?_⟩
    intro d hd
    rcases List.mem_cons.mp hd with hd | hd
    · subst hd
      exact hc
    · exact hu d hd
  · exact hus w hw

lemma intercalate_head_getLast (ws : List (List Char))
    (h : ∀ w ∈ ws, w ≠ [] ∧ ∀ c ∈ w, jsWsChar c = false) (hne : ws ≠ []) :
    (∀ c, (intercalateSp ws).head? = some c → jsWsChar c = false)
    ∧ (∀ c, (intercalateSp ws).getLast? = some c → jsWsChar c = false) := by
  induction ws with
  | nil => exact absurd rfl hne
  | cons w rest ih =>
      obtain ⟨hwne, hwc⟩ := h w (List.mem_cons_self _ _)
      obtain ⟨a, w', hw⟩ : ∃ a w', w = a :: w' := by
        cases w with
        | nil => exact absurd rfl hwne
        | cons a b => exact ⟨a, b, rfl⟩
      cases rest with
      | nil =>
          constructor
          · intro c hc
            rw [hw] at hc
            simp only [intercalateSp, List.head?_cons] at hc
            cases hc
            exact hwc a (by rw [hw]; exact List.mem_cons_self _ _)
          · intro c hc
            simp only [intercalateSp] at hc
            exact hwc c (List.mem_of_getLast?_eq_some hc)
      | cons w2 rest' =>
          obtain ⟨-, ihL⟩ := ih (fun v hv => h v (List.mem_cons_of_mem _ hv))
            (by simp)
          have hi : intercalateSp (w :: w2 :: rest') =
              w ++ ' ' :: intercalateSp (w2 :: rest') := rfl
          constructor
          · intro c hc
            rw [hi, hw] at hc
            simp only [List.cons_append, List.head?_cons] at hc
            cases hc
            exact hwc a (by rw [hw]; exact List.mem_cons_self _ _)
          · intro c hc
            rw [hi] at hc
            obtain ⟨b, t', hbt⟩ : ∃ b t',
                intercalateSp (w2 :: rest') = b :: t' := by
              obtain ⟨h2ne, -⟩ := h w2 (List.mem_cons_of_mem _
                (List.mem_cons_self _ _))
              obtain ⟨a2, w2', hw2⟩ : ∃ a2 w2', w2 = a2 :: w2' := by
                cases w2 with
                | nil => exact absurd rfl h2ne
                | cons x y => exact ⟨x, y, rfl⟩
              cases rest' with
              | nil => exact ⟨a2, w2', by simp [intercalateSp, hw2]⟩
              | cons z zs =>
                  exact ⟨a2, w2' ++ ' ' :: intercalateSp (z :: zs),
                    by simp [intercalateSp, hw2]⟩
            rw [hbt, List.getLast?_append, List.getLast?_cons_cons] at hc
            cases hbl : (b :: t').getLast? with
            | none => simp [List.getLast?_eq_none_iff] at hbl
            | some e =>
                rw [hbl] at hc
                have hec : e = c := by
                  simpa [Option.or] using hc
                apply ihL c
                rw [hbt, hbl, hec]

lemma capitalizeL_idem_ascii (cs : List Char)
    (hA : ∀ c ∈ cs, c.toNat ≤ 127) :
    capitalizeL (capitalizeL cs) = capitalizeL cs := by
  by_cases h0 : cs.isEmpty = true
  · have h1 : capitalizeL cs = [] := by
      simp [capitalizeL, h0]
    rw [h1]
    rfl
  · by_cases htr : trimL cs = []
    · have h1 : capitalizeL cs = [] := by
        unfold capitalizeL
        rw [if_neg h0, htr]
        rfl
      rw [h1]
      rfl
    · obtain ⟨hwne, hwords⟩ := capitalizeL_words cs htr
      have hWg : ∀ w ∈ (splitSp (collapseGo false (trimL cs))).map capWord,
          w ≠ [] ∧ ∀ c ∈ w, jsWsChar c = false := by
        intro w hw
        obtain ⟨v, hv, rfl⟩ := List.mem_map.mp hw
        exact ⟨capWord_ne_nil v (hwords v hv).1,
          capWord_nonws v (hwords v hv).2⟩
      have hWne : (splitSp (collapseGo false (trimL cs))).map capWord ≠ [] :=
        by simpa using hwne
      have hcap : capitalizeL cs =
          intercalateSp ((splitSp (collapseGo false (trimL cs))).map capWord)
        := by
        unfold capitalizeL
        rw [if_neg h0]
      have ht_ne : (intercalateSp
          ((splitSp (collapseGo false (trimL cs))).map capWord)).isEmpty ≠
          true := by
        obtain ⟨w, Wrest, hw⟩ : ∃ w Wrest,
            (splitSp (collapseGo false (trimL cs))).map capWord =
              w :: Wrest := by
          cases hc : (splitSp (collapseGo false (trimL cs))).map capWord with
          | nil => exact absurd hc hWne
          | cons a b => exact ⟨a, b, rfl⟩
        obtain ⟨a, w', ha⟩ : ∃ a w', w = a :: w' := by
          obtain ⟨hne', -⟩ := hWg w (by rw [hw]; exact List.mem_cons_self _ _)
          cases w with
          | nil => exact absurd rfl hne'
          | cons x y => exact ⟨x, y, rfl⟩
        rw [hw, ha]
        cases Wrest <;> simp [intercalateSp]
      have htrim : trimL (intercalateSp
          ((splitSp (collapseGo false (trimL cs))).map capWord)) =
          intercalateSp ((splitSp (collapseGo false (trimL cs))).map capWord)
        := by
        obtain ⟨hH, hL⟩ := intercalate_head_getLast _ hWg hWne
        exact trimL_fix _ hH hL
      have hcol : collapseGo false (intercalateSp
          ((splitSp (collapseGo false (trimL cs))).map capWord)) =
          intercalateSp ((splitSp (collapseGo false (trimL cs))).map capWord)
        := collapseGo_intercalate _ hWg hWne
      have hsplit : splitSp (intercalateSp
          ((splitSp (collapseGo false (trimL cs))).map capWord)) =
          (splitSp (collapseGo false (trimL cs))).map capWord := by
        apply splitSp_intercalate _ _ hWne
        intro w hw c hc he
        have := (hWg w hw).2 c hc
        subst he
        simp [jsWsChar] at this
      have hwordsA : ∀ w ∈ splitSp (collapseGo false (trimL cs)),
          ∀ c ∈ w, c.toNat ≤ 127 := by
        intro w hw c hc
        rcases mem_of_mem_collapseGo false (trimL cs) c
            (mem_of_mem_splitSp _ w hw c hc) with h1 | h1
        · exact hA c (mem_of_mem_trimL cs c h1)
        · rw [h1]
          decide
      have hmapW : ((splitSp (collapseGo false (trimL cs))).map capWord).map
          capWord = (splitSp (collapseGo false (trimL cs))).map capWord := by
        rw [List.map_map]
        exact List.map_congr_left fun w hw =>
          capWord_idem_ascii w (hwordsA w hw)
      rw [hcap]
      unfold capitalizeL
      rw [if_neg ht_ne, htrim, hcol, hsplit, hmapW]

/-- C8 counterexample: the fixture's capitalize is not idempotent on every
string. The sharp s uppercases one-to-many: capitalize "ß" = "SS", but a
second pass lowercases the word first and gives capitalize "SS" = "Ss". -/
theorem c8_capitalize_not_idempotent_counterexample :
    capitalize "ß" = "SS" ∧ capitalize (capitalize "ß") = "Ss"
    ∧ capitalize (capitalize "ß") ≠ capitalize "ß" :=
  ⟨by decide, by decide, by decide⟩

/-- C8 (amended): on strings of basic-latin (ASCII) characters the
fixture's capitalize is idempotent, and the claim's concrete examples
hold; the Latin-1 letters are also handled, as in the fixture's own
accented test case. -/
theorem c8_capitalize_idempotent_ascii :
    (∀ s : String, (∀ c ∈ s.data, c.toNat ≤ 127) →
      capitalize (capitalize s) = capitalize s)
    ∧ capitalize "hello   world" = "Hello World"
    ∧ capitalize "o'connor" = "O'Connor"
    ∧ capitalize "" = ""
    ∧ capitalize "ángel" = "Ángel" :=
  ⟨fun s hA => congrArg String.mk (capitalizeL_idem_ascii s.data hA),
    by decide, by decide, by decide, by decide⟩

/-- C8 witness: the amended idempotence applied at a concrete ASCII string
containing a hyphen, an apostrophe and mixed case. -/
theorem c8_capitalize_idempotent_ascii_witness :
    (∀ c ∈ "anna-maria o'NEIL".data, c.toNat ≤ 127)
    ∧ capitalize (capitalize "anna-maria o'NEIL")
        = capitalize "anna-maria o'NEIL" :=
  ⟨by decide, c8_capitalize_idempotent_ascii.1 "anna-maria o'NEIL"
    (by decide)⟩

/-- C10: `greetMultiple` assumes its first argument is an array — calling
it with `undefined`, `null`, a number, or a string reaches `names.filter`
and raises a `TypeError` instead of returning a greeting string, while the
"everyone" fallback fires only for an actual empty array. -/
theorem c10_greetMultiple_non_array_type_error (currentHour : ℚ)
    (names : JsVal) (timeOfDay : TodInput) (lang : String)
    (h : ∀ elems, names ≠ JsVal.arr elems) :
    (∃ e, greetMultiple currentHour names timeOfDay lang = .error e
      ∧ e.data.take 10 = "TypeError:".data)
    ∧ ∀ (ch : ℚ) (tod : TodInput), greetMultiple ch (.arr []) tod "en" =
      .ok (getGreeting ch tod "en" ++ ", " ++ "everyone" ++ "!") := by
  constructor
  · cases names with
    | arr elems => exact absurd rfl (h elems)
    | undef => exact ⟨_, rfl, by decide⟩
    | jsNull => exact ⟨_, rfl, by decide⟩
    | num q => exact ⟨_, rfl, by decide⟩
    | str s => exact ⟨_, rfl, by decide⟩
  · intro ch tod
    rfl

/-- C10 witness: calling the fixture's multi-greeting with a number throws
a type error; the empty array yields the "everyone" greeting. -/
theorem c10_greetMultiple_non_array_type_error_witness :
    (∀ elems, JsVal.num 5 ≠ JsVal.arr elems)
    ∧ (∃ e, greetMultiple 0 (.num 5) .null "en" = .error e
        ∧ e.data.take 10 = "TypeError:".data)
    ∧ greetMultiple 0 (.arr []) .null "en" =
      .ok (getGreeting 0 .null "en" ++ ", " ++ "everyone" ++ "!") :=
  ⟨fun _ h => JsVal.noConfusion h,
    (c10_greetMultiple_non_array_type_error 0 (.num 5) .null "en"
      (fun _ h => JsVal.noConfusion h)).1,
    (c10_greetMultiple_non_array_type_error 0 (.num 5) .null "en"
      (fun _ h => JsVal.noConfusion h)).2 0 .null⟩

lemma convert12Hour_eq (h : Nat) (p : Bool) :
    convert12Hour h p =
      (if p = true ∧ h < 12 then h + 12
        else if ¬ p = true ∧ h = 12 then 0 else h) := by
  unfold convert12Hour
  cases p <;> simp

lemma stage3_eq (lower : String) :
    (match attemptNumber lower with
      | some r => r
      | none => some lower) =
    (match jsStringToNumber lower with
      | some q =>
          if q.den = 1 ∧ 0 ≤ q.num ∧ q.num ≤ 23 then
            getTimeOfDayFromHour q
          else some lower
      | none => some lower) := by
  unfold attemptNumber
  cases hq : jsStringToNumber lower with
  | none => simp only [hq]
  | some q =>
      by_cases hcq : q.den = 1 ∧ 0 ≤ q.num ∧ q.num ≤ 23
      · simp only [hq, if_pos hcq]
      · simp only [hq, if_neg hcq]

lemma stage23_eq (lower : String) :
    (match attempt24 lower.data with
      | some r => r
      | none =>
          match attemptNumber lower with
          | some r => r
          | none => some lower) =
    (match claim24Hour lower.data with
      | some h => getTimeOfDayFromHour (mkRat h 1)
      | none =>
          match jsStringToNumber lower with
          | some q =>
              if q.den = 1 ∧ 0 ≤ q.num ∧ q.num ≤ 23 then
                getTimeOfDayFromHour q
              else some lower
          | none => some lower) := by
  unfold attempt24 claim24Hour
  cases h24 : match24Hour lower.data with
  | none =>
      simp only [h24]
      exact stage3_eq lower
  | some hm =>
      obtain ⟨h, m⟩ := hm
      by_cases hc : h ≤ 23 ∧ m < 60
      · have hc' : h ≤ 23 ∧ m ≤ 59 := ⟨hc.1, by omega⟩
        simp only [h24, if_pos hc, if_pos hc']
      · have hc' : ¬ (h ≤ 23 ∧ m ≤ 59) := by omega
        simp only [h24, if_neg hc, if_neg hc']
        exact stage3_eq lower

/-- C7 counterexample: `"5.0"` defeats the claim's "bare integer hour
string" description of the third matcher — the source's `Number(lower)`
accepts it (value 5, an integer in range), so the code classifies it as
morning, while the claim as stated predicts the verbatim-lookup fallback
`"5.0"`. -/
theorem c7_bare_integer_counterexample :
    normalizeTimeOfDayStr 0 "5.0" = some "morning"
    ∧ claimNormalizeStr "5.0" = some "5.0"
    ∧ normalizeTimeOfDayStr 0 "5.0" ≠ claimNormalizeStr "5.0" := by
  refine ⟨by decide, by decide, by decide⟩

/-- C7 (amended): for every string input whose trimmed text is nonempty and
not the literal "now", the string branch matches, in order: the 12-hour
clock grammar (hour 1–12, minute 0–59, pm under 12 adds 12, 12 am maps to
0), then the 24-hour clock grammar (hour 0–23, minute 0–59), then — instead
of only bare integer numerals — any string whose JavaScript numeric value
is an integer in `[0,23]`; when all fail, the lowercased text itself is the
result, used verbatim as a category name for lookup.  In particular
"12 am" normalizes to morning, "12 pm" to afternoon, and "24:00" and
"10:60" fail the clock grammars and fall through verbatim. -/
theorem c7_normalization_order_amended (currentHour : ℚ) (s : String)
    (h1 : jsTrim s ≠ "") (h2 : jsToLowerStr (jsTrim s) ≠ "now") :
    normalizeTimeOfDayStr currentHour s = claimNormalizeStrAmended s
    ∧ normalizeTimeOfDayStr 0 "12 am" = some "morning"
    ∧ normalizeTimeOfDayStr 0 "12 pm" = some "afternoon"
    ∧ normalizeTimeOfDayStr 0 "24:00" = some "24:00"
    ∧ normalizeTimeOfDayStr 0 "10:60" = some "10:60" := by
  refine ⟨?_, by decide, by decide, by decide, by decide⟩
  unfold normalizeTimeOfDayStr claimNormalizeStrAmended
  rw [if_neg h1]
  rw [if_neg h2]
  unfold attempt12 claim12Hour
  cases h12 : match12Hour (jsToLowerStr (jsTrim s)).data with
  | none =>
      simp only [h12]
      exact stage23_eq (jsToLowerStr (jsTrim s))
  | some hmp =>
      obtain ⟨h, m, p⟩ := hmp
      by_cases hc : 1 ≤ h ∧ h ≤ 12 ∧ m < 60
      · have hc' : 1 ≤ h ∧ h ≤ 12 ∧ m ≤ 59 := ⟨hc.1, hc.2.1, by omega⟩
        simp only [h12, if_pos hc, if_pos hc']
        rw [convert12Hour_eq]
      · have hc' : ¬ (1 ≤ h ∧ h ≤ 12 ∧ m ≤ 59) := by omega
        simp only [h12, if_neg hc, if_neg hc']
        exact stage23_eq (jsToLowerStr (jsTrim s))

/-- C7 witness: a concrete instantiation of the amended statement at
"12 am". -/
theorem c7_normalization_order_amended_witness :
    jsTrim "12 am" ≠ "" ∧ jsToLowerStr (jsTrim "12 am") ≠ "now"
    ∧ normalizeTimeOfDayStr 0 "12 am" = claimNormalizeStrAmended "12 am"
    ∧ normalizeTimeOfDayStr 0 "12 am" = some "morning" :=
  ⟨by decide, by decide,
    (c7_normalization_order_amended 0 "12 am" (by decide) (by decide)).1,
    (c7_normalization_order_amended 0 "12 am" (by decide) (by decide)).2.1⟩
